import Mathlib

/-!
Verification development for the SysY compiler front end
(`src/frontend/types.rs`, `src/frontend/ast.rs`, `src/frontend/irgen.rs`).

Shallow embedding conventions:
* Rust `i32` is modelled as unbounded `Int`; machine overflow is out of
  scope for the properties checked here (no claim exercises wrap-around),
  but `i32` division/remainder are modelled with the truncating
  `Int.tdiv` / `Int.tmod`, and division by zero is a panic.
* A Rust panic (`panic!`, `unwrap`, `unreachable!`, `expect`, `todo!`) is
  modelled as `none` in an `Option`-valued result.
* `frontend::types::Type` is interned (see the `TypePool` model below, which
  proves structural equality and pointer equality coincide for interned
  handles), so in the rest of the embedding the AST-level type is the plain
  structural inductive `Ty`, and Rust's pointer-equality `PartialEq` is the
  structural `Ty.beq`.
* Rust `HashMap<String, _>` scopes are modelled as association lists where
  `insert` conses a binding in front and `lookup` takes the first match;
  this is observationally equal (for `insert`/`get`) to a hash map.
-/

/-- AST-level type (`TypeKind` in `src/frontend/types.rs`): `Void`, `Bool`,
`Int`, or `Func(params, ret)`. -/
inductive Ty where
  | void
  | bool
  | int
  | func (params : List Ty) (ret : Ty)

mutual
/-- Structural equality test on `Ty`.  For interned `frontend::types::Type`
handles Rust's pointer-equality `PartialEq` coincides with structural
equality (proved below on the `TypePool` model), so this is the faithful
embedding of `==` on `Type`. -/
def Ty.beq : Ty → Ty → Bool
  | .void, .void => true
  | .bool, .bool => true
  | .int, .int => true
  | .func ps r, .func qs s => Ty.beqList ps qs && Ty.beq r s
  | _, _ => false
/-- Pointwise `Ty.beq` on parameter lists. -/
def Ty.beqList : List Ty → List Ty → Bool
  | [], [] => true
  | p :: ps, q :: qs => Ty.beq p q && Ty.beqList ps qs
  | _, _ => false
end

mutual
theorem Ty.beq_refl : ∀ (a : Ty), Ty.beq a a = true
  | .void => rfl
  | .bool => rfl
  | .int => rfl
  | .func ps r => by rw [Ty.beq, Ty.beqList_refl ps, Ty.beq_refl r]; rfl
theorem Ty.beqList_refl : ∀ (l : List Ty), Ty.beqList l l = true
  | [] => rfl
  | p :: ps => by rw [Ty.beqList, Ty.beq_refl p, Ty.beqList_refl ps]; rfl
end

mutual
theorem Ty.eq_of_beq : ∀ {a b : Ty}, Ty.beq a b = true → a = b
  | .void, .void, _ => rfl
  | .bool, .bool, _ => rfl
  | .int, .int, _ => rfl
  | .func ps r, .func qs s, h => by
      rw [Ty.beq] at h
      rw [Ty.eqList_of_beq (Bool.and_elim_left h), Ty.eq_of_beq (Bool.and_elim_right h)]
  | .void, .bool, h => by simp [Ty.beq] at h
  | .void, .int, h => by simp [Ty.beq] at h
  | .void, .func _ _, h => by simp [Ty.beq] at h
  | .bool, .void, h => by simp [Ty.beq] at h
  | .bool, .int, h => by simp [Ty.beq] at h
  | .bool, .func _ _, h => by simp [Ty.beq] at h
  | .int, .void, h => by simp [Ty.beq] at h
  | .int, .bool, h => by simp [Ty.beq] at h
  | .int, .func _ _, h => by simp [Ty.beq] at h
  | .func _ _, .void, h => by simp [Ty.beq] at h
  | .func _ _, .bool, h => by simp [Ty.beq] at h
  | .func _ _, .int, h => by simp [Ty.beq] at h
theorem Ty.eqList_of_beq : ∀ {l m : List Ty}, Ty.beqList l m = true → l = m
  | [], [], _ => rfl
  | p :: ps, q :: qs, h => by
      rw [Ty.beqList] at h
      rw [Ty.eq_of_beq (Bool.and_elim_left h), Ty.eqList_of_beq (Bool.and_elim_right h)]
  | [], _ :: _, h => by simp [Ty.beqList] at h
  | _ :: _, [], h => by simp [Ty.beqList] at h
end

theorem Ty.beq_iff_eq {a b : Ty} : Ty.beq a b = true ↔ a = b :=
  ⟨Ty.eq_of_beq, fun h => h ▸ Ty.beq_refl a⟩

instance : DecidableEq Ty := fun a b =>
  decidable_of_iff (Ty.beq a b = true) Ty.beq_iff_eq

theorem Ty.beq_eq_false_iff {a b : Ty} : Ty.beq a b = false ↔ a ≠ b := by
  constructor
  · intro h hab
    rw [hab, Ty.beq_refl] at h
    exact Bool.noConfusion h
  · intro h
    cases hb : Ty.beq a b with
    | false => rfl
    | true => exact absurd (Ty.eq_of_beq hb) h

/-- `Type::is_int` from `src/frontend/types.rs`. -/
def Ty.is_int : Ty → Bool
  | .int => true
  | _ => false

/-- `Type::is_bool` from `src/frontend/types.rs`. -/
def Ty.is_bool : Ty → Bool
  | .bool => true
  | _ => false

/-- `Type::is_void` from `src/frontend/types.rs`. -/
def Ty.is_void : Ty → Bool
  | .void => true
  | _ => false

/-- `ComptimeVal` from `src/frontend/ast.rs`: `Bool(bool) | Int(i32) |
Undef(Type)`. -/
inductive ComptimeVal where
  | bool (b : Bool)
  | int (i : Int)
  | undef (ty : Ty)
deriving DecidableEq

/-- `ComptimeVal::get_type`. -/
def ComptimeVal.get_type : ComptimeVal → Ty
  | .bool _ => .bool
  | .int _ => .int
  | .undef ty => ty

/-- The `bool -> int` widening used by the arithmetic `impl`s on
`ComptimeVal` (`b as i32`); `none` is the panic on `Undef`. -/
def ComptimeVal.asInt : ComptimeVal → Option Int
  | .bool b => some (if b then 1 else 0)
  | .int i => some i
  | .undef _ => none

/-- The truthiness test shared by `logical_or` / `logical_and`
(`Bool(a) => a`, `Int(a) => a != 0`, panic on `Undef`). -/
def ComptimeVal.truthy : ComptimeVal → Option Bool
  | .bool b => some b
  | .int i => some (i != 0)
  | .undef _ => none

/-- `ComptimeVal::logical_or`. -/
def ComptimeVal.logical_or (x y : ComptimeVal) : Option ComptimeVal := do
  let a ← x.truthy
  let b ← y.truthy
  pure (.bool (a || b))

/-- `ComptimeVal::logical_and`. -/
def ComptimeVal.logical_and (x y : ComptimeVal) : Option ComptimeVal := do
  let a ← x.truthy
  let b ← y.truthy
  pure (.bool (a && b))

/-- `impl PartialEq for ComptimeVal` (total: any combination involving
`Undef` falls through to the `_ => false` arm). -/
def ComptimeVal.eq : ComptimeVal → ComptimeVal → Bool
  | .bool a, .bool b => a == b
  | .int a, .int b => a == b
  | .bool a, .int b => (if a then (1 : Int) else 0) == b
  | .int a, .bool b => a == (if b then (1 : Int) else 0)
  | _, _ => false

/-- `impl PartialOrd for ComptimeVal` (`partial_cmp`; `none` on any
combination involving `Undef`). -/
def ComptimeVal.pcmp : ComptimeVal → ComptimeVal → Option Ordering
  | .bool a, .bool b => some (compare a b)
  | .int a, .int b => some (compare a b)
  | .bool a, .int b => some (compare (if a then (1 : Int) else 0) b)
  | .int a, .bool b => some (compare a (if b then (1 : Int) else 0))
  | _, _ => none

/-- Rust `PartialOrd::lt` derived from `partial_cmp`. -/
def ComptimeVal.lt (x y : ComptimeVal) : Bool := x.pcmp y == some .lt

/-- Rust `PartialOrd::gt` derived from `partial_cmp`. -/
def ComptimeVal.gt (x y : ComptimeVal) : Bool := x.pcmp y == some .gt

/-- Rust `PartialOrd::le` derived from `partial_cmp`. -/
def ComptimeVal.le (x y : ComptimeVal) : Bool :=
  match x.pcmp y with
  | some .lt => true
  | some .eq => true
  | _ => false

/-- Rust `PartialOrd::ge` derived from `partial_cmp`. -/
def ComptimeVal.ge (x y : ComptimeVal) : Bool :=
  match x.pcmp y with
  | some .gt => true
  | some .eq => true
  | _ => false

/-- `impl Neg for ComptimeVal` (panic on `Undef`). -/
def ComptimeVal.neg : ComptimeVal → Option ComptimeVal
  | .bool a => some (.int (-(if a then (1 : Int) else 0)))
  | .int a => some (.int (-a))
  | .undef _ => none

/-- `impl Not for ComptimeVal`: `!Bool(a) = Bool(!a)`,
`!Int(a) = Bool(a != 0)`, panic on `Undef`. -/
def ComptimeVal.not : ComptimeVal → Option ComptimeVal
  | .bool a => some (.bool (!a))
  | .int a => some (.bool (a != 0))
  | .undef _ => none

/-- `impl Add for ComptimeVal` (the four non-`Undef` arms all widen to int
and add; anything else panics). -/
def ComptimeVal.add (x y : ComptimeVal) : Option ComptimeVal := do
  let a ← x.asInt
  let b ← y.asInt
  pure (.int (a + b))

/-- `impl Sub for ComptimeVal`. -/
def ComptimeVal.sub (x y : ComptimeVal) : Option ComptimeVal := do
  let a ← x.asInt
  let b ← y.asInt
  pure (.int (a - b))

/-- `impl Mul for ComptimeVal`. -/
def ComptimeVal.mul (x y : ComptimeVal) : Option ComptimeVal := do
  let a ← x.asInt
  let b ← y.asInt
  pure (.int (a * b))

/-- `impl Div for ComptimeVal`; Rust `i32` division truncates toward zero
(`Int.tdiv`) and panics when the divisor is zero. -/
def ComptimeVal.div (x y : ComptimeVal) : Option ComptimeVal := do
  let a ← x.asInt
  let b ← y.asInt
  if b == 0 then none else pure (.int (Int.tdiv a b))

/-- `impl Rem for ComptimeVal`; Rust `i32` `%` keeps the sign of the
dividend (`Int.tmod`) and panics when the divisor is zero. -/
def ComptimeVal.rem (x y : ComptimeVal) : Option ComptimeVal := do
  let a ← x.asInt
  let b ← y.asInt
  if b == 0 then none else pure (.int (Int.tmod a b))

/-- `BinaryOp` from `src/frontend/ast.rs`. -/
inductive BinaryOp where
  | add | sub | mul | div | mod | lt | gt | le | ge | eq | ne | and | or
deriving DecidableEq

/-- `UnaryOp` from `src/frontend/ast.rs`. -/
inductive UnaryOp where
  | neg | not
deriving DecidableEq

mutual
/-- `Expr` from `src/frontend/ast.rs`: an `ExprKind` plus the optional
resolved type filled in by type checking. -/
inductive Expr where
  | mk (kind : ExprKind) (ty : Option Ty)
/-- `ExprKind` from `src/frontend/ast.rs`.  `LVal { ident }` and
`FuncCall { ident, args }` are inlined as their fields. -/
inductive ExprKind where
  | const (v : ComptimeVal)
  | binary (op : BinaryOp) (lhs rhs : Expr)
  | unary (op : UnaryOp) (e : Expr)
  | funcCall (ident : String) (args : List Expr)
  | lval (ident : String)
  | coercion (e : Expr)
end

/-- Field accessor for `Expr::kind`. -/
def Expr.kind : Expr → ExprKind
  | .mk k _ => k

/-- Field accessor for `Expr::ty` (the raw `Option`; the panicking
`Expr::ty()` getter is modelled by binding this in `Option`). -/
def Expr.tyOf : Expr → Option Ty
  | .mk _ t => t

/-- Replace the `ty` field (Rust `expr.ty = Some(..)`). -/
def Expr.setTy : Expr → Option Ty → Expr
  | .mk k _, t => .mk k t

/-- `Expr::const_`. -/
def Expr.const_ (val : ComptimeVal) : Expr := .mk (.const val) (some val.get_type)

/-- `Expr::binary`. -/
def Expr.binary (op : BinaryOp) (lhs rhs : Expr) : Expr := .mk (.binary op lhs rhs) none

/-- `Expr::unary`. -/
def Expr.unary (op : UnaryOp) (e : Expr) : Expr := .mk (.unary op e) none

/-- `Expr::func_call`. -/
def Expr.func_call (ident : String) (args : List Expr) : Expr :=
  .mk (.funcCall ident args) none

/-- `Expr::lval`. -/
def Expr.lval (ident : String) : Expr := .mk (.lval ident) none

/-- `Expr::coercion`: if the expression already carries exactly the target
type it is returned unchanged, otherwise it is wrapped in a `Coercion`
node carrying the target type. -/
def Expr.coercion (e : Expr) (tgt : Ty) : Expr :=
  match e.tyOf with
  | some from_ => if Ty.beq from_ tgt then e else .mk (.coercion e) (some tgt)
  | none => .mk (.coercion e) (some tgt)

/-- `ir::Ty` as produced by `IrGenContext::gen_type` (`void`, `i1`, `i32`);
`gen_type` never produces a float type, so the `is_float` test used in
`gen_local_expr` is identically `false` on generated values. -/
inductive IrTy where
  | void
  | i1
  | i32
deriving DecidableEq

/-- `ir::Value`.  Modelled from the spec: the external IR store exposes
typed values that are either immediates, instruction results, incoming
function parameters (queryable via `is_param`), or global references. -/
inductive Value where
  | i1 (b : Bool)
  | i32 (v : Int)
  | undef (ty : IrTy)
  | instRes (id : Nat)
  | param (f : Nat) (idx : Nat)
  | globalRef (name : String) (ty : IrTy)
deriving DecidableEq

/-- `Value::is_param`. Modelled from the spec: the IR store can query
whether a value denotes a bare incoming parameter. -/
def Value.is_param : Value → Bool
  | .param _ _ => true
  | _ => false

/-- `IrGenResult` from `src/frontend/irgen.rs`: a symbol's IR binding is
either a global slot or a local value.  The global arm carries the
global's name and type (looked up from the IR store in Rust). -/
inductive IrGenResult where
  | global (name : String) (ty : IrTy)
  | value (v : Value)
deriving DecidableEq

/-- `IrGenResult::unwrap_value` (panics on a global). -/
def IrGenResult.unwrap_value : IrGenResult → Option Value
  | .value v => some v
  | .global _ _ => none

/-- `SymbolEntry` from `src/frontend/ast.rs`. -/
structure SymbolEntry where
  ty : Ty
  comptime : Option ComptimeVal
  ir_value : Option IrGenResult
deriving DecidableEq

/-- `SymbolEntry::from_ty`. -/
def SymbolEntry.from_ty (ty : Ty) : SymbolEntry :=
  { ty := ty, comptime := none, ir_value := none }

/-- One scope of the symbol table: Rust `HashMap<String, SymbolEntry>`,
modelled as an association list (insert conses, lookup takes the first
match). -/
abbrev Scope := List (String × SymbolEntry)

/-- Insert into one scope (`HashMap::insert`; overwriting is modelled by
shadowing, which is observationally equal for `get`). -/
def Scope.insert (s : Scope) (name : String) (entry : SymbolEntry) : Scope :=
  (name, entry) :: s

/-- Lookup in one scope (`HashMap::get`). -/
def Scope.get : Scope → String → Option SymbolEntry
  | [], _ => none
  | (n, e) :: rest, name => if n == name then some e else Scope.get rest name

/-- `SymbolTable` from `src/frontend/ast.rs`: a stack of scopes (head =
innermost, matching the `Vec` iterated in reverse) plus the current
function's declared return type. -/
structure SymbolTable where
  stack : List Scope := []
  curr_ret_ty : Option Ty := none

/-- `SymbolTable::enter_scope`. -/
def SymbolTable.enter_scope (st : SymbolTable) : SymbolTable :=
  { st with stack := [] :: st.stack }

/-- `SymbolTable::leave_scope`. -/
def SymbolTable.leave_scope (st : SymbolTable) : SymbolTable :=
  { st with stack := st.stack.tail }

/-- `SymbolTable::insert` (into the innermost scope; Rust unwraps
`last_mut`, so the empty-stack case is a panic that the claims never
reach — here it leaves the table unchanged). -/
def SymbolTable.insert (st : SymbolTable) (name : String) (entry : SymbolEntry) :
    SymbolTable :=
  { st with
    stack :=
      match st.stack with
      | [] => []
      | s :: rest => s.insert name entry :: rest }

/-- Helper for `insert_upper`: insert into the scope `upper` levels below
the innermost one (Rust panics when the stack is too short; the claims
never reach that case). -/
def SymbolTable.insertUpperGo (name : String) (entry : SymbolEntry) :
    List Scope → Nat → List Scope
  | [], _ => []
  | s :: rest, 0 => s.insert name entry :: rest
  | s :: rest, u + 1 => s :: SymbolTable.insertUpperGo name entry rest u

/-- `SymbolTable::insert_upper`. -/
def SymbolTable.insert_upper (st : SymbolTable) (name : String) (entry : SymbolEntry)
    (upper : Nat) : SymbolTable :=
  { st with stack := SymbolTable.insertUpperGo name entry st.stack upper }

/-- `SymbolTable::lookup`: innermost-first search over all live scopes. -/
def SymbolTable.lookupGo : List Scope → String → Option SymbolEntry
  | [], _ => none
  | s :: rest, name =>
    match s.get name with
    | some e => some e
    | none => SymbolTable.lookupGo rest name

/-- `SymbolTable::lookup`. -/
def SymbolTable.lookup (st : SymbolTable) (name : String) : Option SymbolEntry :=
  SymbolTable.lookupGo st.stack name

/-- `Expr::try_fold` from `src/frontend/ast.rs`.

The result is `Option (Option ComptimeVal)`: the outer layer is panic
(`none` = the Rust call panics, e.g. arithmetic on `Undef`, division by
zero, a failed `unwrap`, or an unsupported coercion target), the inner
layer is the Rust `Option<ComptimeVal>` (`some none` = not foldable,
propagated by the `?` operator; `some (some v)` = folded to `v`).
The evaluation order matches Rust: the left operand is folded first, and
an unfoldable left operand short-circuits before the right operand can
panic. -/
def Expr.try_fold : Expr → SymbolTable → Option (Option ComptimeVal)
  | .mk (.const v) _, _ => some (some v)
  | .mk (.binary op lhs rhs) _, st =>
    match lhs.try_fold st with
    | none => none
    | some none => some none
    | some (some l) =>
      match rhs.try_fold st with
      | none => none
      | some none => some none
      | some (some r) =>
        match op with
        | .add => (l.add r).map some
        | .sub => (l.sub r).map some
        | .mul => (l.mul r).map some
        | .div => (l.div r).map some
        | .mod => (l.rem r).map some
        | .lt => some (some (.bool (l.lt r)))
        | .gt => some (some (.bool (l.gt r)))
        | .le => some (some (.bool (l.le r)))
        | .ge => some (some (.bool (l.ge r)))
        | .eq => some (some (.bool (l.eq r)))
        | .ne => some (some (.bool (!(l.eq r))))
        | .and => (l.logical_and r).map some
        | .or => (l.logical_or r).map some
  | .mk (.unary op e) _, st =>
    match e.try_fold st with
    | none => none
    | some none => some none
    | some (some v) =>
      match op with
      | .neg => v.neg.map some
      | .not => v.not.map some
  | .mk (.funcCall _ _) _, _ => some none
  | .mk (.lval ident) _, st =>
    match st.lookup ident with
    | none => none
    | some entry => some entry.comptime
  | .mk (.coercion e) selfTy, st =>
    match e.try_fold st with
    | none => none
    | some none => some none
    | some (some v) =>
      match selfTy with
      | none => none
      | some t =>
        match t with
        | .bool =>
          match v with
          | .bool b => some (some (.bool b))
          | .int i => some (some (.bool (i != 0)))
          | .undef _ => none
        | .int =>
          match v with
          | .bool b => some (some (.int (if b then 1 else 0)))
          | .int i => some (some (.int i))
          | .undef _ => none
        | .void => none
        | .func _ _ => none

/-- The operand-coercion dispatch inside the `Binary` arm of
`Expr::type_check` (`src/frontend/ast.rs` lines 927-939): a `Bool`
operand paired with an `Int` operand is coerced to `Int` (never the
reverse); any other combination must already have equal types or the
check panics. -/
def Expr.binCoerce (lhs rhs : Expr) (lhsTy rhsTy : Ty) : Option (Expr × Expr) :=
  match lhsTy, rhsTy with
  | .bool, .int => some (Expr.coercion lhs .int, rhs)
  | .int, .bool => some (lhs, Expr.coercion rhs .int)
  | _, _ => if Ty.beq lhsTy rhsTy then some (lhs, rhs) else none

/-- The expected-type step at the end of `Expr::type_check`
(`src/frontend/ast.rs` lines 1030-1044): when an expected type is given
and is `Int` or `Bool`, a coercion to it is appended and becomes the
node's type; otherwise the expected type must equal the node's type or
the check panics. -/
def Expr.applyExpect (e : Expr) (expect : Option Ty) : Option Expr :=
  match expect with
  | none => some e
  | some t =>
    if t.is_int || t.is_bool then
      match t with
      | .bool => some ((Expr.coercion e .bool).setTy (some t))
      | .int => some ((Expr.coercion e .int).setTy (some t))
      | _ => none
    else
      match e.tyOf with
      | none => none
      | some et => if Ty.beq t et then some e else none

/-- The folding step at the end of `Expr::type_check`
(`src/frontend/ast.rs` lines 1046-1049): if the expression folds, it is
replaced by a constant; a panic inside `try_fold` propagates. -/
def Expr.applyFold (e : Expr) (st : SymbolTable) : Option Expr :=
  match e.try_fold st with
  | none => none
  | some none => some e
  | some (some v) => some (Expr.const_ v)

mutual
/-- The `Binary` arm of `Expr::type_check` (`src/frontend/ast.rs` lines
918-963): type check both operands with no expected type, coerce a
`Bool`/`Int` mix via `binCoerce`, and give the node the (possibly
coerced) left operand's type — uniformly for all thirteen operators. -/
def Expr.type_check_binary (op : BinaryOp) (lhs rhs : Expr) (st : SymbolTable) :
    Option Expr :=
  match Expr.type_check lhs none st with
  | none => none
  | some lhs1 =>
    match Expr.type_check rhs none st with
    | none => none
    | some rhs1 =>
      match lhs1.tyOf with
      | none => none
      | some lhsTy =>
        match rhs1.tyOf with
        | none => none
        | some rhsTy =>
          match Expr.binCoerce lhs1 rhs1 lhsTy rhsTy with
          | none => none
          | some (lhs2, rhs2) =>
            match lhs2.tyOf with
            | none => none
            | some lhsTy2 => some (.mk (.binary op lhs2 rhs2) (some lhsTy2))
termination_by sizeOf lhs + sizeOf rhs + 1
decreasing_by all_goals (simp_wf; try omega)

/-- `Expr::type_check` from `src/frontend/ast.rs` (lines 909-1052).
`none` is a panic (unresolved identifier, unsupported coercion, panic
inside folding, ...). -/
def Expr.type_check : Expr → Option Ty → SymbolTable → Option Expr
  | .mk k ty0, expect, st =>
    if ty0.isSome && expect.isNone then some (.mk k ty0)
    else
      match
        (match k with
         | .const v => some (Expr.mk (.const v) ty0)
         | .binary op lhs rhs => Expr.type_check_binary op lhs rhs st
         | .coercion _ => none
         | .funcCall ident args =>
           match st.lookup ident with
           | none => none
           | some entry =>
             match entry.ty with
             | .func paramTys retTy =>
               match Expr.type_check_args args paramTys st with
               | none => none
               | some args1 => some (.mk (.funcCall ident args1) (some retTy))
             | _ => none
         | .lval ident =>
           match st.lookup ident with
           | none => none
           | some entry => some (.mk (.lval ident) (some entry.ty))
         | .unary op e =>
           match Expr.type_check e none st with
           | none => none
           | some e1 =>
             match op with
             | .neg =>
               match e1.tyOf with
               | none => none
               | some t0 =>
                 match (if t0.is_bool then Expr.coercion e1 .int else e1).tyOf with
                 | none => none
                 | some t =>
                   if t.is_int then
                     some (.mk (.unary .neg (if t0.is_bool then Expr.coercion e1 .int else e1))
                           (some t))
                   else none
             | .not =>
               match e1.tyOf with
               | none => none
               | some t0 =>
                 if t0.is_bool || t0.is_int then some (.mk (.unary .not e1) (some .bool))
                 else none)
      with
      | none => none
      | some expr1 =>
        match expr1.applyExpect expect with
        | none => none
        | some expr2 => expr2.applyFold st
termination_by e expect st => sizeOf e
decreasing_by all_goals (simp_wf; try omega)

/-- The argument loop of the `FuncCall` arm of `Expr::type_check`:
`args.into_iter().zip(param_tys)` checks each argument against the
matching parameter type (zip truncates at the shorter list, exactly as
in Rust). -/
def Expr.type_check_args : List Expr → List Ty → SymbolTable → Option (List Expr)
  | [], _, _ => some []
  | _ :: _, [], _ => some []
  | a :: rest, t :: ts, st =>
    match Expr.type_check a (some t) st with
    | none => none
    | some a1 =>
      match Expr.type_check_args rest ts st with
      | none => none
      | some rest1 => some (a1 :: rest1)
termination_by args tys st => sizeOf args
decreasing_by all_goals (simp_wf; try omega)
end

/-- `ConstDef` from `src/frontend/ast.rs`. -/
structure ConstDef where
  ident : String
  init : Expr

/-- `VarDef` from `src/frontend/ast.rs`. -/
structure VarDef where
  ident : String
  init : Option Expr

/-- `Decl` from `src/frontend/ast.rs` (with the `ConstDecl` / `VarDecl`
structs inlined as their fields). -/
inductive Decl where
  | constDecl (ty : Ty) (defs : List ConstDef)
  | varDecl (ty : Ty) (defs : List VarDef)

mutual
/-- `Stmt` from `src/frontend/ast.rs`.  `Block` is inlined as its item
list; `LVal` as its identifier. -/
inductive Stmt where
  | assign (ident : String) (e : Expr)
  | exprStmt (e : Option Expr)
  | block (items : List BlockItem)
  | sIf (cond : Expr) (thenS : Stmt) (elseS : Option Stmt)
  | sWhile (cond : Expr) (body : Stmt)
  | sBreak
  | sContinue
  | ret (e : Option Expr)
/-- `BlockItem` from `src/frontend/ast.rs`. -/
inductive BlockItem where
  | decl (d : Decl)
  | stmt (s : Stmt)
end

/-- One iteration of the loop in `ConstDecl::type_check`
(`src/frontend/ast.rs` lines 667-695): type check the initializer
against the declared type, fold it (panicking if it is not constant),
replace the initializer by the folded constant, and record the folded
value in the symbol table. -/
def ConstDef.type_check1 (ty : Ty) (d : ConstDef) (st : SymbolTable) :
    Option (ConstDef × SymbolTable) :=
  match Expr.type_check d.init (some ty) st with
  | none => none
  | some init1 =>
    match init1.try_fold st with
    | some (some folded) =>
      some ({ ident := d.ident, init := Expr.const_ folded },
        st.insert d.ident { ty := ty, comptime := some folded, ir_value := none })
    | _ => none

/-- `ConstDecl::type_check` (the loop over `defs`). -/
def ConstDecl.type_check (ty : Ty) : List ConstDef → SymbolTable →
    Option (List ConstDef × SymbolTable)
  | [], st => some ([], st)
  | d :: ds, st =>
    match ConstDef.type_check1 ty d st with
    | none => none
    | some (d1, st1) =>
      match ConstDecl.type_check ty ds st1 with
      | none => none
      | some (ds1, st2) => some (d1 :: ds1, st2)

/-- One iteration of the loop in `VarDecl::type_check`
(`src/frontend/ast.rs` lines 698-733): a present initializer is type
checked against the declared type and opportunistically folded; an
absent initializer becomes an `Undef` constant; the symbol is inserted
with no compile-time value. -/
def VarDef.type_check1 (ty : Ty) (d : VarDef) (st : SymbolTable) :
    Option (VarDef × SymbolTable) :=
  match d.init with
  | some init =>
    match Expr.type_check init (some ty) st with
    | none => none
    | some typed =>
      match typed.try_fold st with
      | none => none
      | some (some v) =>
        some ({ ident := d.ident, init := some (Expr.const_ v) },
          st.insert d.ident (SymbolEntry.from_ty ty))
      | some none =>
        some ({ ident := d.ident, init := some typed },
          st.insert d.ident (SymbolEntry.from_ty ty))
  | none =>
    some ({ ident := d.ident, init := some (Expr.const_ (.undef ty)) },
      st.insert d.ident (SymbolEntry.from_ty ty))

/-- `VarDecl::type_check` (the loop over `defs`). -/
def VarDecl.type_check (ty : Ty) : List VarDef → SymbolTable →
    Option (List VarDef × SymbolTable)
  | [], st => some ([], st)
  | d :: ds, st =>
    match VarDef.type_check1 ty d st with
    | none => none
    | some (d1, st1) =>
      match VarDecl.type_check ty ds st1 with
      | none => none
      | some (ds1, st2) => some (d1 :: ds1, st2)

/-- `Decl` dispatch used by `Block::type_check`. -/
def Decl.type_check (d : Decl) (st : SymbolTable) : Option (Decl × SymbolTable) :=
  match d with
  | .constDecl ty defs =>
    match ConstDecl.type_check ty defs st with
    | none => none
    | some (defs1, st1) => some (.constDecl ty defs1, st1)
  | .varDecl ty defs =>
    match VarDecl.type_check ty defs st with
    | none => none
    | some (defs1, st1) => some (.varDecl ty defs1, st1)

mutual
/-- `Stmt::type_check` from `src/frontend/ast.rs` (lines 769-831).  The
Rust pass mutates the symbol table through `&mut`; here the updated
table is returned alongside the rewritten statement. -/
def Stmt.type_check : Stmt → SymbolTable → Option (Stmt × SymbolTable)
  | .assign ident e, st =>
    match st.lookup ident with
    | none => none
    | some entry =>
      match Expr.type_check e (some entry.ty) st with
      | none => none
      | some e1 => some (.assign ident e1, st)
  | .exprStmt none, st => some (.exprStmt none, st)
  | .exprStmt (some e), st =>
    match Expr.type_check e none st with
    | none => none
    | some e1 => some (.exprStmt (some e1), st)
  | .block items, st =>
    match Block.type_check_items items st.enter_scope with
    | none => none
    | some (items1, st1) => some (.block items1, st1.leave_scope)
  | .sBreak, st => some (.sBreak, st)
  | .sContinue, st => some (.sContinue, st)
  | .ret none, st => some (.ret none, st)
  | .ret (some e), st =>
    match Expr.type_check e st.curr_ret_ty st with
    | none => none
    | some e1 =>
      match st.curr_ret_ty with
      | none => none
      | some rt =>
        if rt.is_int then some (.ret (some (Expr.coercion e1 .int)), st)
        else none
  | .sIf cond thenS elseS, st =>
    match Expr.type_check cond (some .bool) st with
    | none => none
    | some c1 =>
      match Stmt.type_check thenS st with
      | none => none
      | some (t1, st1) =>
        match Stmt.type_check_else elseS st1 with
        | none => none
        | some (e1, st2) => some (.sIf c1 t1 e1, st2)
  | .sWhile cond body, st =>
    match Expr.type_check cond (some .bool) st with
    | none => none
    | some c1 =>
      match Stmt.type_check body st with
      | none => none
      | some (b1, st1) => some (.sWhile c1 b1, st1)

/-- The `else_block.map(|block| block.type_check(symtable))` step of the
`If` arm of `Stmt::type_check`. -/
def Stmt.type_check_else : Option Stmt → SymbolTable → Option (Option Stmt × SymbolTable)
  | none, st => some (none, st)
  | some es, st =>
    match Stmt.type_check es st with
    | none => none
    | some (e1, st1) => some (some e1, st1)

/-- The item loop inside `Block::type_check`
(`src/frontend/ast.rs` lines 735-765). -/
def Block.type_check_items : List BlockItem → SymbolTable →
    Option (List BlockItem × SymbolTable)
  | [], st => some ([], st)
  | .decl d :: rest, st =>
    match Decl.type_check d st with
    | none => none
    | some (d1, st1) =>
      match Block.type_check_items rest st1 with
      | none => none
      | some (rest1, st2) => some (.decl d1 :: rest1, st2)
  | .stmt s :: rest, st =>
    match Stmt.type_check s st with
    | none => none
    | some (s1, st1) =>
      match Block.type_check_items rest st1 with
      | none => none
      | some (rest1, st2) => some (.stmt s1 :: rest1, st2)
end

/-- `Block::type_check` from `src/frontend/ast.rs` (lines 735-765):
enter a scope, type check the items in order, leave the scope.  (The
`Stmt::Block` arm of `Stmt.type_check` performs these same three steps
inline.) -/
def Block.type_check (items : List BlockItem) (st : SymbolTable) :
    Option (List BlockItem × SymbolTable) :=
  match Block.type_check_items items st.enter_scope with
  | none => none
  | some (items1, st1) => some (items1, st1.leave_scope)

/-- An interned type handle (`frontend::types::Type`, i.e. `Rc<TypeKind>`):
pointer identity of the `Rc` is modelled as the allocation id. -/
structure PType where
  id : Nat
deriving DecidableEq

/-- `TypeKind` as keyed in the interning pool of `Type::make`
(`src/frontend/types.rs`): the `Func` fields are themselves interned
handles, exactly as in Rust where `TypeKind::Func` holds `Type`s. -/
inductive PTypeKind where
  | void
  | bool
  | int
  | func (params : List PType) (ret : PType)
deriving DecidableEq

/-- The process-wide interning pool (`Type::POOL`): a map from kind to
the canonical handle, plus the next fresh allocation id. -/
structure TypePool where
  entries : List (PTypeKind × PType) := []
  nextId : Nat := 0

/-- `Type::make` from `src/frontend/types.rs` (lines 73-84): return the
cached handle for the kind if present, else allocate a fresh handle and
cache it. -/
def PType.make (p : TypePool) (k : PTypeKind) : PType × TypePool :=
  match p.entries.lookup k with
  | some t => (t, p)
  | none =>
    (⟨p.nextId⟩,
      { entries := (k, (⟨p.nextId⟩ : PType)) :: p.entries, nextId := p.nextId + 1 })

/-- `impl PartialEq for Type`: `Rc::ptr_eq`, i.e. comparison of the
allocation ids. -/
def PType.ptr_eq (a b : PType) : Bool := a.id == b.id

/-- Run a sequence of `Type::make` calls (models arbitrary intervening
type constructions between two calls of interest). -/
def PType.makeMany (p : TypePool) : List PTypeKind → TypePool
  | [] => p
  | k :: ks => PType.makeMany (PType.make p k).2 ks

theorem PType.lookup_make_preserved (p : TypePool) (k k2 : PTypeKind) (t : PType)
    (h : p.entries.lookup k = some t) :
    (PType.make p k2).2.entries.lookup k = some t := by
  unfold PType.make
  cases h2 : p.entries.lookup k2 with
  | some t2 => simpa using h
  | none =>
    simp only [List.lookup]
    have hne : (k == k2) = false := by
      cases hkk : k == k2 with
      | false => rfl
      | true =>
        rw [show k = k2 from by exact_mod_cast eq_of_beq hkk] at h
        rw [h] at h2
        exact Option.noConfusion h2
    simpa [hne] using h

theorem PType.lookup_makeMany_preserved (ks : List PTypeKind) (p : TypePool)
    (k : PTypeKind) (t : PType) (h : p.entries.lookup k = some t) :
    (PType.makeMany p ks).entries.lookup k = some t := by
  induction ks generalizing p with
  | nil => simpa [PType.makeMany] using h
  | cons k2 ks ih =>
    rw [PType.makeMany]
    exact ih _ (PType.lookup_make_preserved p k k2 t h)

theorem PType.lookup_after_make (p : TypePool) (k : PTypeKind) :
    (PType.make p k).2.entries.lookup k = some (PType.make p k).1 := by
  unfold PType.make
  cases h : p.entries.lookup k with
  | some t => simpa using h
  | none => simp [List.lookup]

theorem PType.make_of_lookup (p : TypePool) (k : PTypeKind) (t : PType)
    (h : p.entries.lookup k = some t) : PType.make p k = (t, p) := by
  unfold PType.make
  rw [h]

/-- C6: `Type::make` is idempotent — a second `make` with the same
structural kind content, even after arbitrary intervening `make` calls,
returns the identical handle (same `Rc` allocation, modelled as the same
id) — and `Type` equality (`Rc::ptr_eq`) coincides with pointer
identity. -/
theorem claim_C6_make_idempotent_interning :
    (∀ (p : TypePool) (k : PTypeKind) (ks : List PTypeKind),
      (PType.make (PType.makeMany (PType.make p k).2 ks) k).1 = (PType.make p k).1)
    ∧ (∀ a b : PType, PType.ptr_eq a b = true ↔ a = b) := by
  constructor
  · intro p k ks
    have h1 := PType.lookup_after_make p k
    have h2 := PType.lookup_makeMany_preserved ks _ k _ h1
    rw [PType.make_of_lookup _ _ _ h2]
  · intro a b
    cases a with
    | mk i =>
      cases b with
      | mk j => simp [PType.ptr_eq]

/-- C8: coercing an expression whose resolved type is already `Int` to
`Int` returns the expression unchanged — no `Coercion` node is added. -/
theorem claim_C8_coercion_idempotent :
    ∀ (e : Expr), e.tyOf = some .int → Expr.coercion e .int = e := by
  intro e h
  unfold Expr.coercion
  rw [h]
  simp [Ty.beq]

/-- Witness for C8 at a concrete `Int`-typed expression. -/
theorem claim_C8_coercion_idempotent_witness :
    (Expr.mk (.lval ("x")) (some .int)).tyOf = some Ty.int ∧
    Expr.coercion (Expr.mk (.lval ("x")) (some .int)) .int =
      Expr.mk (.lval ("x")) (some .int) :=
  ⟨rfl, claim_C8_coercion_idempotent (Expr.mk (.lval ("x")) (some .int)) rfl⟩

/-- C10: folding logical NOT on `Int(a)` yields `Bool(a != 0)` (so
`!Int(1)` folds to `Bool(true)` and `!Int(0)` folds to `Bool(false)`,
not the C-style negated truth value), and on `Bool(b)` it yields
`Bool(!b)`. -/
theorem claim_C10_not_folding :
    ∀ (a : Int) (b : Bool) (st : SymbolTable),
    ComptimeVal.not (.int a) = some (.bool (a != 0)) ∧
    ComptimeVal.not (.bool b) = some (.bool (!b)) ∧
    Expr.try_fold (Expr.unary .not (Expr.const_ (.int a))) st = some (some (.bool (a != 0))) ∧
    Expr.try_fold (Expr.unary .not (Expr.const_ (.int 1))) st = some (some (.bool true)) ∧
    Expr.try_fold (Expr.unary .not (Expr.const_ (.int 0))) st = some (some (.bool false)) ∧
    Expr.try_fold (Expr.unary .not (Expr.const_ (.bool b))) st = some (some (.bool (!b))) := by
  intro a b st
  refine ⟨rfl, rfl, ?_, ?_, ?_, ?_⟩ <;>
    simp [Expr.try_fold, Expr.unary, Expr.const_, ComptimeVal.not, ComptimeVal.get_type]

/-- C2 counterexample: the claim says every operator applied to an
`Undefined` operand is reported as an error, but the equality and
relational operators silently produce a boolean: `Undef(Int) == Int(0)`
folds to `Bool(false)` and `Undef(Int) != Int(0)` folds to `Bool(true)`
with no error. -/
theorem claim_C2_counterexample :
    ComptimeVal.eq (.undef .int) (.int 0) = false ∧
    Expr.try_fold (Expr.binary .eq (Expr.const_ (.undef .int)) (Expr.const_ (.int 0)))
      { stack := [[]] } = some (some (.bool false)) ∧
    Expr.try_fold (Expr.binary .ne (Expr.const_ (.undef .int)) (Expr.const_ (.int 0)))
      { stack := [[]] } = some (some (.bool true)) ∧
    Expr.try_fold (Expr.binary .lt (Expr.const_ (.undef .int)) (Expr.const_ (.int 0)))
      { stack := [[]] } = some (some (.bool false)) := by
  refine ⟨rfl, ?_, ?_, ?_⟩ <;>
    simp [Expr.try_fold, Expr.binary, Expr.const_, ComptimeVal.eq, ComptimeVal.lt,
      ComptimeVal.pcmp, ComptimeVal.get_type]

/-- C2 (amended): the arithmetic operators (`Add`, `Sub`, `Mul`, `Div`,
`Mod`), the logical operators (`And`, `Or`), and the unary operators
(`Neg`, `Not`) panic ("invalid operation") whenever an operand is
`Undefined` — they never produce a default value — but the equality and
relational operators (`Eq`, `Ne`, `Lt`, `Gt`, `Le`, `Ge`) do not error:
`PartialEq` silently returns `false` and `partial_cmp` returns `None`,
so `Eq` folds to `Bool(false)`, `Ne` to `Bool(true)`, and the orderings
to `Bool(false)`. -/
theorem claim_C2_amended_undef_guard :
    ∀ (t : Ty) (v : ComptimeVal),
    ComptimeVal.add (.undef t) v = none ∧ ComptimeVal.add v (.undef t) = none ∧
    ComptimeVal.sub (.undef t) v = none ∧ ComptimeVal.sub v (.undef t) = none ∧
    ComptimeVal.mul (.undef t) v = none ∧ ComptimeVal.mul v (.undef t) = none ∧
    ComptimeVal.div (.undef t) v = none ∧ ComptimeVal.div v (.undef t) = none ∧
    ComptimeVal.rem (.undef t) v = none ∧ ComptimeVal.rem v (.undef t) = none ∧
    ComptimeVal.logical_and (.undef t) v = none ∧
    ComptimeVal.logical_and v (.undef t) = none ∧
    ComptimeVal.logical_or (.undef t) v = none ∧
    ComptimeVal.logical_or v (.undef t) = none ∧
    ComptimeVal.neg (.undef t) = none ∧
    ComptimeVal.not (.undef t) = none ∧
    ComptimeVal.eq (.undef t) v = false ∧ ComptimeVal.eq v (.undef t) = false ∧
    ComptimeVal.pcmp (.undef t) v = none ∧ ComptimeVal.pcmp v (.undef t) = none ∧
    ComptimeVal.lt (.undef t) v = false ∧ ComptimeVal.lt v (.undef t) = false ∧
    ComptimeVal.gt (.undef t) v = false ∧ ComptimeVal.gt v (.undef t) = false ∧
    ComptimeVal.le (.undef t) v = false ∧ ComptimeVal.le v (.undef t) = false ∧
    ComptimeVal.ge (.undef t) v = false ∧ ComptimeVal.ge v (.undef t) = false := by
  intro t v
  cases v <;>
    simp [ComptimeVal.add, ComptimeVal.sub, ComptimeVal.mul, ComptimeVal.div,
      ComptimeVal.rem, ComptimeVal.logical_and, ComptimeVal.logical_or,
      ComptimeVal.neg, ComptimeVal.not, ComptimeVal.eq, ComptimeVal.pcmp,
      ComptimeVal.lt, ComptimeVal.gt, ComptimeVal.le, ComptimeVal.ge,
      ComptimeVal.asInt, ComptimeVal.truthy]

/-- C4: in the `Binary` arm of `Expr::type_check`, both operands are
analyzed with no expected type; a `Bool` operand facing an `Int` operand
is wrapped in a `Coercion` to `Int` (never `Int` to `Bool`); any other
combination of differing types panics; and the resulting binary node's
type is the (possibly coerced) left operand's type, uniformly for the
arithmetic, comparison and logical operators. -/
theorem claim_C4_binary_analysis :
    ∀ (op : BinaryOp) (lhs rhs lhs1 rhs1 : Expr) (tl tr : Ty) (st : SymbolTable),
    Expr.type_check lhs none st = some lhs1 →
    Expr.type_check rhs none st = some rhs1 →
    lhs1.tyOf = some tl → rhs1.tyOf = some tr →
    ((tl = .bool → tr = .int →
       Expr.type_check_binary op lhs rhs st =
         some (.mk (.binary op (Expr.coercion lhs1 .int) rhs1) (some .int))) ∧
     (tl = .int → tr = .bool →
       Expr.type_check_binary op lhs rhs st =
         some (.mk (.binary op lhs1 (Expr.coercion rhs1 .int)) (some .int))) ∧
     (tl = tr →
       Expr.type_check_binary op lhs rhs st =
         some (.mk (.binary op lhs1 rhs1) (some tl))) ∧
     (tl ≠ tr → ¬(tl = .bool ∧ tr = .int) → ¬(tl = .int ∧ tr = .bool) →
       Expr.type_check_binary op lhs rhs st = none)) := by
  intro op lhs rhs lhs1 rhs1 tl tr st h1 h2 h3 h4
  rcases lhs1 with ⟨k1, oty1⟩
  rcases rhs1 with ⟨k2, oty2⟩
  rw [show (Expr.mk k1 oty1).tyOf = oty1 from rfl] at h3
  rw [show (Expr.mk k2 oty2).tyOf = oty2 from rfl] at h4
  subst h3
  subst h4
  refine ⟨?_, ?_, ?_, ?_⟩
  · rintro rfl rfl
    simp [Expr.type_check_binary, h1, h2, Expr.binCoerce, Expr.coercion,
      Ty.beq, Expr.tyOf]
  · rintro rfl rfl
    simp [Expr.type_check_binary, h1, h2, Expr.binCoerce, Expr.coercion,
      Ty.beq, Expr.tyOf]
  · rintro rfl
    cases tl <;>
      simp [Expr.type_check_binary, h1, h2, Expr.binCoerce, Expr.coercion,
        Ty.beq, Ty.beq_refl, Ty.beqList_refl, Expr.tyOf]
  · intro hne hm1 hm2
    have hb : Ty.beq tl tr = false := Ty.beq_eq_false_iff.mpr hne
    cases tl <;> cases tr <;>
      simp_all [Expr.type_check_binary, Expr.binCoerce, Expr.tyOf]

/-- Witness for C4: `Bool(true) + Int(2)` — the left operand is coerced
to `Int` and the node gets type `Int`. -/
theorem claim_C4_binary_analysis_witness :
    Expr.type_check (Expr.const_ (.bool true)) none { stack := [[]] } =
      some (Expr.const_ (.bool true)) ∧
    Expr.type_check (Expr.const_ (.int 2)) none { stack := [[]] } =
      some (Expr.const_ (.int 2)) ∧
    (Expr.const_ (.bool true)).tyOf = some Ty.bool ∧
    (Expr.const_ (.int 2)).tyOf = some Ty.int ∧
    Expr.type_check_binary .add (Expr.const_ (.bool true)) (Expr.const_ (.int 2))
      { stack := [[]] } =
      some (.mk (.binary .add (Expr.coercion (Expr.const_ (.bool true)) .int)
        (Expr.const_ (.int 2))) (some .int)) := by
  have htc1 : Expr.type_check (Expr.const_ (.bool true)) none { stack := [[]] } =
      some (Expr.const_ (.bool true)) := by
    simp [Expr.type_check, Expr.const_, Expr.tyOf, ComptimeVal.get_type]
  have htc2 : Expr.type_check (Expr.const_ (.int 2)) none { stack := [[]] } =
      some (Expr.const_ (.int 2)) := by
    simp [Expr.type_check, Expr.const_, Expr.tyOf, ComptimeVal.get_type]
  exact ⟨htc1, htc2, rfl, rfl,
    (claim_C4_binary_analysis .add (Expr.const_ (.bool true)) (Expr.const_ (.int 2))
      (Expr.const_ (.bool true)) (Expr.const_ (.int 2)) .bool .int { stack := [[]] }
      htc1 htc2 rfl rfl).1 rfl rfl⟩

/-- C5 counterexample: a `return` of `Bool(true)` in a function whose
declared return type is `Bool` — a non-void return type — is rejected
("unsupported return type") instead of being coerced to the declared
type, so the claim's "holds for every non-void declared return type"
fails. -/
theorem claim_C5_counterexample :
    Stmt.type_check (.ret (some (Expr.const_ (.bool true))))
      { stack := [[]], curr_ret_ty := some .bool } = none := by
  simp [Stmt.type_check, Expr.type_check, Expr.const_, Expr.tyOf,
    Expr.applyExpect, Expr.applyFold, Expr.try_fold, Expr.coercion,
    ComptimeVal.get_type, Ty.is_int, Ty.is_bool, Ty.beq, Expr.setTy]

/-- C5 (amended): a `return` with an expression types the expression
against the enclosing function's declared return type and coerces the
result to it — but only when that declared type is `Int`; every other
non-void declared return type is rejected (see the counterexample). -/
theorem claim_C5_amended_return_coercion :
    ∀ (st : SymbolTable) (e : Expr),
    st.curr_ret_ty = some .int →
    Stmt.type_check (.ret (some e)) st =
      (Expr.type_check e (some .int) st).map
        (fun e1 => (.ret (some (Expr.coercion e1 .int)), st)) := by
  intro st e h
  cases htc : Expr.type_check e (some .int) st <;>
    simp [Stmt.type_check, h, htc, Ty.is_int]

/-- Witness for C5 (amended) at `return 1` with declared return type
`Int`. -/
theorem claim_C5_amended_return_coercion_witness :
    ({ stack := [[]], curr_ret_ty := some .int } : SymbolTable).curr_ret_ty =
      some .int ∧
    Stmt.type_check (.ret (some (Expr.const_ (.int 1))))
      { stack := [[]], curr_ret_ty := some .int } =
      (Expr.type_check (Expr.const_ (.int 1)) (some .int)
        { stack := [[]], curr_ret_ty := some .int }).map
        (fun e1 => (.ret (some (Expr.coercion e1 .int)),
          ({ stack := [[]], curr_ret_ty := some .int } : SymbolTable))) :=
  ⟨rfl, claim_C5_amended_return_coercion
    { stack := [[]], curr_ret_ty := some .int } (Expr.const_ (.int 1)) rfl⟩

theorem SymbolTable.lookupGo_cons_none {s : Scope} {rest : List Scope} {c : String}
    (h : SymbolTable.lookupGo (s :: rest) c = none) :
    s.get c = none ∧ SymbolTable.lookupGo rest c = none := by
  cases hg : s.get c with
  | some e => rw [SymbolTable.lookupGo, hg] at h; exact Option.noConfusion h
  | none => rw [SymbolTable.lookupGo, hg] at h; exact ⟨rfl, h⟩

/-- C7: scope shadowing and the `insert_upper` escape hatch.  With a
live stack and a name `c` bound nowhere: (1) after an inner scope
re-inserts `a` over an outer binding, `lookup` returns the inner entry
while the inner scope is live and the outer entry again after
`leave_scope`; (2) an entry inserted via `insert_upper` with `upper = 1`
survives popping the current scope but is discarded when the ancestor
scope it was inserted into is popped. -/
theorem claim_C7_scope_shadowing :
    ∀ (st : SymbolTable) (a c : String) (eout ein ec : SymbolEntry),
    st.stack ≠ [] →
    st.lookup c = none →
    (((st.insert a eout).enter_scope.insert a ein).lookup a = some ein ∧
     ((st.insert a eout).enter_scope.insert a ein).leave_scope.lookup a = some eout) ∧
    (((st.insert a eout).enter_scope.insert_upper c ec 1).leave_scope.lookup c =
        some ec ∧
     ((st.insert a eout).enter_scope.insert_upper c ec 1).leave_scope.leave_scope.lookup
        c = none) := by
  intro st a c eout ein ec hne hc
  obtain ⟨stk, crt⟩ := st
  cases stk with
  | nil => exact absurd rfl hne
  | cons s rest =>
    obtain ⟨hs, hrest⟩ := SymbolTable.lookupGo_cons_none hc
    refine ⟨⟨?_, ?_⟩, ?_, ?_⟩
    · simp [SymbolTable.insert, SymbolTable.enter_scope, SymbolTable.lookup,
        SymbolTable.lookupGo, Scope.insert, Scope.get]
    · simp [SymbolTable.insert, SymbolTable.enter_scope, SymbolTable.leave_scope,
        SymbolTable.lookup, SymbolTable.lookupGo, Scope.insert, Scope.get]
    · simp [SymbolTable.insert, SymbolTable.enter_scope, SymbolTable.leave_scope,
        SymbolTable.insert_upper, SymbolTable.insertUpperGo, SymbolTable.lookup,
        SymbolTable.lookupGo, Scope.insert, Scope.get]
    · simp [SymbolTable.insert, SymbolTable.enter_scope, SymbolTable.leave_scope,
        SymbolTable.insert_upper, SymbolTable.insertUpperGo, SymbolTable.lookup,
        SymbolTable.lookupGo, Scope.insert, Scope.get, hrest]

/-- Witness for C7 on a concrete two-entry scenario. -/
theorem claim_C7_scope_shadowing_witness :
    (({ stack := [[(("z" : String), SymbolEntry.from_ty .int)]] } : SymbolTable).stack ≠ [] ∧
     ({ stack := [[(("z" : String), SymbolEntry.from_ty .int)]] } : SymbolTable).lookup
        ("c") = none) ∧
    (((({ stack := [[(("z" : String), SymbolEntry.from_ty .int)]] } : SymbolTable).insert
        ("a") (SymbolEntry.from_ty .int)).enter_scope.insert ("a")
        (SymbolEntry.from_ty .bool)).lookup ("a") = some (SymbolEntry.from_ty .bool) ∧
     ((({ stack := [[(("z" : String), SymbolEntry.from_ty .int)]] } : SymbolTable).insert
        ("a") (SymbolEntry.from_ty .int)).enter_scope.insert ("a")
        (SymbolEntry.from_ty .bool)).leave_scope.lookup ("a") =
        some (SymbolEntry.from_ty .int)) ∧
    ((((({ stack := [[(("z" : String), SymbolEntry.from_ty .int)]] } : SymbolTable).insert
        ("a") (SymbolEntry.from_ty .int)).enter_scope.insert_upper ("c")
        (SymbolEntry.from_ty .int) 1).leave_scope.lookup ("c") =
        some (SymbolEntry.from_ty .int)) ∧
     ((((({ stack := [[(("z" : String), SymbolEntry.from_ty .int)]] } : SymbolTable).insert
        ("a") (SymbolEntry.from_ty .int)).enter_scope.insert_upper ("c")
        (SymbolEntry.from_ty .int) 1).leave_scope.leave_scope.lookup ("c")) = none)) := by
  refine ⟨⟨by simp, by decide⟩, ?_⟩
  exact claim_C7_scope_shadowing
    { stack := [[(("z" : String), SymbolEntry.from_ty .int)]] } ("a") ("c")
    (SymbolEntry.from_ty .int) (SymbolEntry.from_ty .bool) (SymbolEntry.from_ty .int)
    (by simp) (by decide)

/-- `ir::IntCmpCond`. Modelled from the spec: the comparison-condition
sub-variant of the integer binary instruction. -/
inductive IntCmpCond where
  | eq | ne | slt | sle | sgt | sge
deriving DecidableEq

/-- `ir::IntBinaryOp`. Modelled from the spec: the integer binary
instruction kinds named in `map_int_binary_op`. -/
inductive IntBinaryOp where
  | add | sub | mul | sdiv | srem
  | icmp (cond : IntCmpCond)
  | and | or
deriving DecidableEq

/-- An IR instruction. Modelled from the spec (§6): alloca, load, store,
integer binary op, unconditional branch, return. -/
inductive InstKind where
  | alloca (ty : IrTy)
  | load (ptr : Value) (ty : IrTy)
  | store (val : Value) (ptr : Value)
  | ibinary (op : IntBinaryOp) (lhs rhs : Value)
  | br (target : Nat)
  | ret (val : Option Value)
deriving DecidableEq

/-- Per-function data in the IR store. Modelled from the spec (§6):
name, return type, parameter list, ordered list of owned blocks. -/
structure FuncData where
  name : String
  retTy : IrTy
  params : List IrTy
  blocks : List Nat
deriving DecidableEq

/-- Update (or add) the binding of `k` in an association list; bindings
carry stable ids, so this models in-place mutation in the IR arena. -/
def assocSet {α : Type} : List (Nat × α) → Nat → α → List (Nat × α)
  | [], k, v => [(k, v)]
  | (k2, v2) :: rest, k, v =>
    if k2 == k then (k, v) :: rest else (k2, v2) :: assocSet rest k v

/-- `ir::Context`, the external IR store. Modelled from the spec (§6):
an arena handing out stable identities for instructions, blocks and
functions, with each block holding an ordered instruction list. -/
structure Context where
  nextId : Nat := 0
  insts : List (Nat × InstKind) := []
  blockInsts : List (Nat × List Nat) := []
  funcs : List (Nat × FuncData) := []
deriving DecidableEq

/-- `Inst::new` (the shared constructor behind `Inst::alloca`,
`Inst::load`, `Inst::store`, `Inst::ibinary`, `Inst::br`, `Inst::ret`).
Modelled from the spec: allocates a fresh stable id. -/
def Inst.new (ctx : Context) (k : InstKind) : Nat × Context :=
  (ctx.nextId,
    { ctx with nextId := ctx.nextId + 1, insts := (ctx.nextId, k) :: ctx.insts })

/-- `Block::new`. Modelled from the spec. -/
def Block.new (ctx : Context) : Nat × Context :=
  (ctx.nextId,
    { ctx with
      nextId := ctx.nextId + 1
      blockInsts := (ctx.nextId, []) :: ctx.blockInsts })

/-- `inst.result(&ctx)`. Modelled from the spec: alloca, load and
integer-binary instructions produce a value; store/br/ret do not. -/
def Inst.result (ctx : Context) (i : Nat) : Option Value :=
  match ctx.insts.lookup i with
  | some (.alloca _) => some (.instRes i)
  | some (.load _ _) => some (.instRes i)
  | some (.ibinary _ _ _) => some (.instRes i)
  | _ => none

/-- `block.push_back(&mut ctx, inst)`. Modelled from the spec: monotonic
back insertion into the block's instruction list. -/
def Block.push_back (ctx : Context) (b : Nat) (i : Nat) : Option Context :=
  match ctx.blockInsts.lookup b with
  | some l => some { ctx with blockInsts := assocSet ctx.blockInsts b (l ++ [i]) }
  | none => none

/-- `block.push_front(&mut ctx, inst)`. Modelled from the spec. -/
def Block.push_front (ctx : Context) (b : Nat) (i : Nat) : Option Context :=
  match ctx.blockInsts.lookup b with
  | some l => some { ctx with blockInsts := assocSet ctx.blockInsts b (i :: l) }
  | none => none

/-- `Func::new`. Modelled from the spec. -/
def Func.new (ctx : Context) (name : String) (retTy : IrTy) : Nat × Context :=
  (ctx.nextId,
    { ctx with
      nextId := ctx.nextId + 1
      funcs := (ctx.nextId,
        { name := name, retTy := retTy, params := [], blocks := [] }) :: ctx.funcs })

/-- `func.push_back(&mut ctx, block)`. Modelled from the spec: appends the
block to the function's ordered block list. -/
def Func.push_back_block (ctx : Context) (f b : Nat) : Option Context :=
  match ctx.funcs.lookup f with
  | some fd =>
    some { ctx with funcs := assocSet ctx.funcs f { fd with blocks := fd.blocks ++ [b] } }
  | none => none

/-- `func.add_param(&mut ctx, ty)`. Modelled from the spec: appends a
parameter and returns the bare incoming-parameter value. -/
def Func.add_param (ctx : Context) (f : Nat) (ty : IrTy) : Option (Value × Context) :=
  match ctx.funcs.lookup f with
  | some fd =>
    some (.param f fd.params.length,
      { ctx with funcs := assocSet ctx.funcs f { fd with params := fd.params ++ [ty] } })
  | none => none

/-- `func.head(&ctx)`: the function's entry block. Modelled from the
spec. -/
def Func.head (ctx : Context) (f : Nat) : Option Nat :=
  match ctx.funcs.lookup f with
  | some fd => fd.blocks.head?
  | none => none

/-- `IrGenContext` from `src/frontend/irgen.rs`. -/
structure IrGenContext where
  ctx : Context := {}
  symtable : SymbolTable := {}
  curr_func : Option Nat := none
  curr_func_name : Option String := none
  curr_block : Option Nat := none
  loop_entry_stack : List Nat := []
  loop_exit_stack : List Nat := []
  curr_ret_slot : Option Value := none
  curr_ret_block : Option Nat := none

/-- `IrGenContext::gen_type` (panics on a function type). -/
def IrGenContext.gen_type : Ty → Option IrTy
  | .void => some .void
  | .bool => some .i1
  | .int => some .i32
  | .func _ _ => none

/-- `IrGenContext::gen_local_comptime`. -/
def IrGenContext.gen_local_comptime : ComptimeVal → Option Value
  | .bool a => some (.i1 a)
  | .int a => some (.i32 a)
  | .undef ty => Option.map Value.undef (IrGenContext.gen_type ty)

/-- `IrGenContext::map_int_binary_op` from `src/frontend/irgen.rs`
(lines 128-159): note that the logical `And`/`Or` source operators are
mapped to the bitwise integer `And`/`Or` instructions. -/
def IrGenContext.map_int_binary_op : BinaryOp → IntBinaryOp
  | .add => .add
  | .sub => .sub
  | .mul => .mul
  | .div => .sdiv
  | .mod => .srem
  | .lt => .icmp .slt
  | .gt => .icmp .sgt
  | .le => .icmp .sle
  | .ge => .icmp .sge
  | .eq => .icmp .eq
  | .ne => .icmp .ne
  | .and => .and
  | .or => .or

/-- The slot computation shared by the `LVal` arm of `gen_local_expr`
and the `Assign` arm of `Stmt::irgen`: a `Global` binding becomes a
global-reference value, a local binding is used as is. -/
def IrGenContext.slotOf : IrGenResult → Value
  | .global name ty => .globalRef name ty
  | .value v => v

/-- The ubiquitous Rust idiom `let inst = Inst::xxx(&mut ctx, ..);
block.push_back(&mut ctx, inst).unwrap();`: create an instruction and
append it to a block, returning its id. -/
def emitBack (g : IrGenContext) (b : Nat) (k : InstKind) : Option (Nat × IrGenContext) :=
  match Block.push_back (Inst.new g.ctx k).2 b (Inst.new g.ctx k).1 with
  | none => none
  | some ctx2 => some ((Inst.new g.ctx k).1, { g with ctx := ctx2 })

/-- Same as `emitBack` for `block.push_front` (used for `alloca`s, which
must live at the front of the entry block). -/
def emitFront (g : IrGenContext) (b : Nat) (k : InstKind) : Option (Nat × IrGenContext) :=
  match Block.push_front (Inst.new g.ctx k).2 b (Inst.new g.ctx k).1 with
  | none => none
  | some ctx2 => some ((Inst.new g.ctx k).1, { g with ctx := ctx2 })

/-- `IrGenContext::gen_local_expr` from `src/frontend/irgen.rs` (lines
162-236).  `none` is a panic or an unimplemented (`todo!`) arm (unary,
coercion, call).  The generated values all have integer types
(`gen_type` produces only `void`/`i1`/`i32`), so the `is_float` test on
the left operand of a binary operation is identically false and the
integer path is always taken. -/
def IrGenContext.gen_local_expr (g : IrGenContext) : Expr → Option (Value × IrGenContext)
  | .mk (.const v) _ =>
    match g.curr_block with
    | none => none
    | some _ =>
      match IrGenContext.gen_local_comptime v with
      | none => none
      | some val => some (val, g)
  | .mk (.binary op lhs rhs) _ =>
    match g.curr_block with
    | none => none
    | some curr =>
      match g.gen_local_expr lhs with
      | none => none
      | some (l, g1) =>
        match g1.gen_local_expr rhs with
        | none => none
        | some (r, g2) =>
          match emitBack g2 curr (.ibinary (IrGenContext.map_int_binary_op op) l r) with
          | none => none
          | some (inst, g3) =>
            match Inst.result g3.ctx inst with
            | none => none
            | some res => some (res, g3)
  | .mk (.unary _ _) _ => none
  | .mk (.lval ident) _ =>
    match g.curr_block with
    | none => none
    | some curr =>
      match g.symtable.lookup ident with
      | none => none
      | some entry =>
        match entry.ir_value with
        | none => none
        | some irv =>
          match IrGenContext.gen_type entry.ty with
          | none => none
          | some baseTy =>
            let slot := IrGenContext.slotOf irv
            if slot.is_param then some (slot, g)
            else
              match emitBack g curr (.load slot baseTy) with
              | none => none
              | some (load, g1) =>
                match Inst.result g1.ctx load with
                | none => none
                | some res => some (res, g1)
  | .mk (.coercion _) _ => none
  | .mk (.funcCall _ _) _ => none

/-- The loop body of the `ConstDecl` arm of `impl IrGen for Decl`
(`src/frontend/irgen.rs` lines 461-485): fold the initializer (it must
be constant), allocate a stack slot at the front of the entry block,
bind the symbol to the slot, lower the initializer, and store it into
the slot in the current block. -/
def Decl.irgenConstDefs (entry curr : Nat) :
    IrGenContext → List ConstDef → Option IrGenContext
  | g, [] => some g
  | g, d :: ds =>
    match d.init.try_fold g.symtable with
    | some (some comptime) =>
      match d.init.tyOf with
      | none => none
      | some ty =>
        match IrGenContext.gen_type ty with
        | none => none
        | some irTy =>
          match emitFront g entry (.alloca irTy) with
          | none => none
          | some (slotInst, g1) =>
            match Inst.result g1.ctx slotInst with
            | none => none
            | some slotVal =>
              let g2 : IrGenContext :=
                { g1 with
                  symtable := g1.symtable.insert d.ident
                    { ty := ty, comptime := some comptime,
                      ir_value := some (.value slotVal) } }
              match g2.gen_local_expr d.init with
              | none => none
              | some (initVal, g3) =>
                match emitBack g3 curr (.store initVal slotVal) with
                | none => none
                | some (_, g4) => Decl.irgenConstDefs entry curr g4 ds
    | _ => none

/-- The loop body of the `VarDecl` arm of `impl IrGen for Decl`
(`src/frontend/irgen.rs` lines 487-509): same as the constant case but
with no compile-time value recorded (the initializer is always present
after type checking; its absence is a panic). -/
def Decl.irgenVarDefs (entry curr : Nat) :
    IrGenContext → List VarDef → Option IrGenContext
  | g, [] => some g
  | g, d :: ds =>
    match d.init with
    | none => none
    | some init =>
      match init.tyOf with
      | none => none
      | some ty =>
        match IrGenContext.gen_type ty with
        | none => none
        | some irTy =>
          match emitFront g entry (.alloca irTy) with
          | none => none
          | some (slotInst, g1) =>
            match Inst.result g1.ctx slotInst with
            | none => none
            | some slotVal =>
              let g2 : IrGenContext :=
                { g1 with
                  symtable := g1.symtable.insert d.ident
                    { ty := ty, comptime := none,
                      ir_value := some (.value slotVal) } }
              match g2.gen_local_expr init with
              | none => none
              | some (initVal, g3) =>
                match emitBack g3 curr (.store initVal slotVal) with
                | none => none
                | some (_, g4) => Decl.irgenVarDefs entry curr g4 ds

/-- `impl IrGen for Decl` (`src/frontend/irgen.rs` lines 456-513): local
declarations allocate their slots in the entry block of the current
function and store the lowered initializer in the current block. -/
def Decl.irgen (g : IrGenContext) (d : Decl) : Option IrGenContext :=
  match g.curr_func with
  | none => none
  | some f =>
    match Func.head g.ctx f with
    | none => none
    | some entry_block =>
      match g.curr_block with
      | none => none
      | some curr =>
        match d with
        | .constDecl _ defs => Decl.irgenConstDefs entry_block curr g defs
        | .varDecl _ defs => Decl.irgenVarDefs entry_block curr g defs

mutual
/-- `impl IrGen for Stmt` (`src/frontend/irgen.rs` lines 515-578).
`none` is a panic or an unimplemented (`todo!`) arm (`If`, `While`,
`Break`, `Continue`). -/
def Stmt.irgen (g : IrGenContext) : Stmt → Option IrGenContext
  | .assign ident e =>
    match g.curr_block with
    | none => none
    | some curr =>
      match g.symtable.lookup ident with
      | none => none
      | some entry =>
        match entry.ir_value with
        | none => none
        | some irv =>
          match g.gen_local_expr e with
          | none => none
          | some (val, g1) =>
            match emitBack g1 curr (.store val (IrGenContext.slotOf irv)) with
            | none => none
            | some (_, g2) => some g2
  | .exprStmt none =>
    match g.curr_block with
    | none => none
    | some _ => some g
  | .exprStmt (some e) =>
    match g.curr_block with
    | none => none
    | some _ =>
      match g.gen_local_expr e with
      | none => none
      | some (_, g1) => some g1
  | .block items =>
    match g.curr_block with
    | none => none
    | some _ =>
      match Block.irgenItems { g with symtable := g.symtable.enter_scope } items with
      | none => none
      | some g1 => some { g1 with symtable := g1.symtable.leave_scope }
  | .sIf _ _ _ => none
  | .sWhile _ _ => none
  | .sBreak => none
  | .sContinue => none
  | .ret (some e) =>
    match g.curr_block with
    | none => none
    | some _ =>
      match g.gen_local_expr e with
      | none => none
      | some (val, g1) =>
        match g1.curr_ret_slot with
        | none => none
        | some slot =>
          match g1.curr_block with
          | none => none
          | some curr1 =>
            match emitBack g1 curr1 (.store val slot) with
            | none => none
            | some (_, g2) =>
              match g2.curr_ret_block with
              | none => none
              | some rb =>
                match g2.curr_block with
                | none => none
                | some curr2 =>
                  match emitBack g2 curr2 (.br rb) with
                  | none => none
                  | some (_, g3) => some g3
  | .ret none =>
    match g.curr_block with
    | none => none
    | some _ =>
      match g.curr_ret_block with
      | none => none
      | some rb =>
        match g.curr_block with
        | none => none
        | some curr1 =>
          match emitBack g curr1 (.br rb) with
          | none => none
          | some (_, g1) => some g1

/-- The item loop of `impl IrGen for ast::Block`
(`src/frontend/irgen.rs` lines 580-591). -/
def Block.irgenItems (g : IrGenContext) : List BlockItem → Option IrGenContext
  | [] => some g
  | .decl d :: rest =>
    match Decl.irgen g d with
    | none => none
    | some g1 => Block.irgenItems g1 rest
  | .stmt s :: rest =>
    match Stmt.irgen g s with
    | none => none
    | some g1 => Block.irgenItems g1 rest
end

/-- `impl IrGen for ast::Block`: enter a scope, lower the items, leave
the scope.  (The `Stmt::Block` arm of `Stmt.irgen` performs the same
three steps inline.) -/
def Block.irgen (g : IrGenContext) (items : List BlockItem) : Option IrGenContext :=
  match Block.irgenItems { g with symtable := g.symtable.enter_scope } items with
  | none => none
  | some g1 => some { g1 with symtable := g1.symtable.leave_scope }

/-- `FuncFParam` from `src/frontend/ast.rs`. -/
structure FuncFParam where
  ty : Ty
  ident : String

/-- `FuncDef` from `src/frontend/ast.rs` (the body's `Block` inlined as
its item list). -/
structure FuncDef where
  ret_ty : Ty
  ident : String
  params : List FuncFParam
  body : List BlockItem

/-- The first parameter loop of `impl IrGen for FuncDef`
(`src/frontend/irgen.rs` lines 362-374): add each parameter to the IR
function and bind its name to the bare incoming parameter value. -/
def FuncDef.addParams (f : Nat) : IrGenContext → List FuncFParam → Option IrGenContext
  | g, [] => some g
  | g, p :: ps =>
    match IrGenContext.gen_type p.ty with
    | none => none
    | some irTy =>
      match Func.add_param g.ctx f irTy with
      | none => none
      | some (pv, ctx1) =>
        FuncDef.addParams f
          { g with
            ctx := ctx1
            symtable := g.symtable.insert p.ident
              { ty := p.ty, comptime := none, ir_value := some (.value pv) } } ps

/-- The second parameter loop of `impl IrGen for FuncDef`
(`src/frontend/irgen.rs` lines 377-409): for each parameter of integer
type, allocate a stack slot at the front of the entry block, store the
incoming parameter value into it at the back, and rebind the symbol to
the slot. -/
def FuncDef.paramSlots (blk : Nat) : IrGenContext → List FuncFParam → Option IrGenContext
  | g, [] => some g
  | g, p :: ps =>
    if p.ty.is_int then
      match IrGenContext.gen_type p.ty with
      | none => none
      | some irTy =>
        match emitFront g blk (.alloca irTy) with
        | none => none
        | some (slotInst, g1) =>
          match Inst.result g1.ctx slotInst with
          | none => none
          | some slotVal =>
            match g1.symtable.lookup p.ident with
            | none => none
            | some entry =>
              match entry.ir_value with
              | none => none
              | some irv =>
                match irv.unwrap_value with
                | none => none
                | some pv =>
                  match emitBack g1 blk (.store pv slotVal) with
                  | none => none
                  | some (_, g2) =>
                    FuncDef.paramSlots blk
                      { g2 with
                        symtable := g2.symtable.insert p.ident
                          { ty := p.ty, comptime := none,
                            ir_value := some (.value slotVal) } } ps
    else FuncDef.paramSlots blk g ps

/-- Everything `impl IrGen for FuncDef` (`src/frontend/irgen.rs` lines
330-453) does before `self.body.irgen(irgen)`: enter the parameter
scope, create the IR function with its entry block, bind the function's
name one scope up, add and slot the parameters, create the (not yet
appended) return block, and allocate the return-value slot at the front
of the entry block when the return type is non-void.  Returns the
pre-body context together with the function, entry block and return
block ids. -/
def FuncDef.irgenSetup (g : IrGenContext) (fd : FuncDef) :
    Option (IrGenContext × Nat × Nat × Nat) :=
  let g0 := { g with symtable := g.symtable.enter_scope }
  let paramTys := List.map FuncFParam.ty fd.params
  let funcTy := Ty.func paramTys fd.ret_ty
  match IrGenContext.gen_type fd.ret_ty with
  | none => none
  | some irRetTy =>
    let (f, ctx1) := Func.new g0.ctx fd.ident irRetTy
    let g1 : IrGenContext :=
      { g0 with
        ctx := ctx1
        symtable := g0.symtable.insert_upper fd.ident
          { ty := funcTy, comptime := none, ir_value := none } 1 }
    let (blk, ctx2) := Block.new g1.ctx
    match Func.push_back_block ctx2 f blk with
    | none => none
    | some ctx3 =>
      let g2 : IrGenContext :=
        { g1 with
          ctx := ctx3
          curr_func := some f
          curr_func_name := some fd.ident
          curr_block := some blk }
      match FuncDef.addParams f g2 fd.params with
      | none => none
      | some g3 =>
        match FuncDef.paramSlots blk g3 fd.params with
        | none => none
        | some g4 =>
          let (retBlock, ctx4) := Block.new g4.ctx
          let g5 : IrGenContext := { g4 with ctx := ctx4, curr_ret_block := some retBlock }
          if fd.ret_ty.is_void then some (g5, f, blk, retBlock)
          else
            match IrGenContext.gen_type fd.ret_ty with
            | none => none
            | some irRetTy2 =>
              match emitFront g5 blk (.alloca irRetTy2) with
              | none => none
              | some (retSlot, g6) =>
                match Inst.result g6.ctx retSlot with
                | none => none
                | some slotVal =>
                  some ({ g6 with curr_ret_slot := some slotVal }, f, blk, retBlock)

/-- Everything `impl IrGen for FuncDef` does after `self.body.irgen`:
append the return block to the function, emit the load-and-return (or
bare return for void) into it, clear the per-function fields, and leave
the parameter scope. -/
def FuncDef.irgenFinish (g : IrGenContext) (fd : FuncDef) (f retBlock : Nat) :
    Option IrGenContext :=
  match Func.push_back_block g.ctx f retBlock with
  | none => none
  | some ctx1 =>
    if fd.ret_ty.is_void then
      match emitBack { g with ctx := ctx1 } retBlock (.ret none) with
      | none => none
      | some (_, g1) =>
        some { g1 with
          curr_func := none
          curr_func_name := none
          curr_block := none
          curr_ret_slot := none
          curr_ret_block := none
          symtable := g1.symtable.leave_scope }
    else
      match g.curr_ret_slot with
      | none => none
      | some retSlot =>
        match IrGenContext.gen_type fd.ret_ty with
        | none => none
        | some irTy =>
          match emitBack { g with ctx := ctx1 } retBlock (.load retSlot irTy) with
          | none => none
          | some (loadInst, g1) =>
            match Inst.result g1.ctx loadInst with
            | none => none
            | some loadVal =>
              match emitBack g1 retBlock (.ret (some loadVal)) with
              | none => none
              | some (_, g2) =>
                some { g2 with
                  curr_func := none
                  curr_func_name := none
                  curr_block := none
                  curr_ret_slot := none
                  curr_ret_block := none
                  symtable := g2.symtable.leave_scope }

/-- `impl IrGen for FuncDef` (`src/frontend/irgen.rs` lines 330-453):
the pre-body setup, the body lowering, and the post-body finish, in
source order. -/
def FuncDef.irgen (g : IrGenContext) (fd : FuncDef) : Option IrGenContext :=
  match FuncDef.irgenSetup g fd with
  | none => none
  | some (g1, f, _blk, retBlock) =>
    match Block.irgen g1 fd.body with
    | none => none
    | some g2 => FuncDef.irgenFinish g2 fd f retBlock

/-- Modelled from the spec: two's-complement encoding of an `i32` value
as a 32-bit natural, for the bitwise `And`/`Or` IR instructions. -/
def enc32 (a : Int) : Nat := (a % (2 ^ 32 : Int)).toNat

/-- Modelled from the spec: decoding a 32-bit natural back to a signed
`i32` value. -/
def dec32 (n : Nat) : Int := if n < 2 ^ 31 then (n : Int) else (n : Int) - 2 ^ 32

/-- Modelled from the spec: bitwise AND on `i32`. -/
def band32 (a b : Int) : Int := dec32 (Nat.land (enc32 a) (enc32 b))

/-- Modelled from the spec: bitwise OR on `i32`. -/
def bor32 (a b : Int) : Int := dec32 (Nat.lor (enc32 a) (enc32 b))

/-- Modelled from the spec: the signed comparison conditions of the
`ICmp` instruction. -/
def IntCmpCond.holds : IntCmpCond → Int → Int → Bool
  | .eq, a, b => a == b
  | .ne, a, b => a != b
  | .slt, a, b => decide (a < b)
  | .sle, a, b => decide (a ≤ b)
  | .sgt, a, b => decide (b < a)
  | .sge, a, b => decide (b ≤ a)

/-- Modelled from the spec: the runtime semantics of the integer binary
IR instructions (`i1` results of comparisons are 0/1; division and
remainder trap on a zero divisor; `And`/`Or` are the bitwise
instructions their names denote). -/
def IntBinaryOp.eval : IntBinaryOp → Int → Int → Option Int
  | .add, a, b => some (a + b)
  | .sub, a, b => some (a - b)
  | .mul, a, b => some (a * b)
  | .sdiv, a, b => if b == 0 then none else some (Int.tdiv a b)
  | .srem, a, b => if b == 0 then none else some (Int.tmod a b)
  | .icmp c, a, b => some (if c.holds a b then 1 else 0)
  | .and, a, b => some (band32 a b)
  | .or, a, b => some (bor32 a b)

/-- Modelled from the spec: the runtime integer denoted by a value in an
environment mapping instruction results to integers (`i1` values are
0/1). -/
def evalValue (env : List (Nat × Int)) : Value → Option Int
  | .i1 b => some (if b then 1 else 0)
  | .i32 v => some v
  | .instRes i => env.lookup i
  | _ => none

/-- Modelled from the spec: execute a straight-line list of pure integer
binary instructions, extending the environment with each result (the
sole instruction kind that expression lowering emits for constant
expressions). -/
def execInsts (ctx : Context) : List Nat → List (Nat × Int) → Option (List (Nat × Int))
  | [], env => some env
  | i :: rest, env =>
    match ctx.insts.lookup i with
    | some (.ibinary op l r) =>
      match evalValue env l, evalValue env r with
      | some a, some b =>
        match op.eval a b with
        | none => none
        | some v => execInsts ctx rest ((i, v) :: env)
      | _, _ => none
    | _ => none

/-- Lower an expression with `gen_local_expr` into a fresh single-block
function context, execute the emitted instructions, and read back the
runtime integer of the resulting value. -/
def lowerAndRun (e : Expr) : Option Int :=
  let g0 : IrGenContext :=
    { ctx := { nextId := 1, blockInsts := [(0, [])] }, curr_block := some 0 }
  match g0.gen_local_expr e with
  | none => none
  | some (v, g1) =>
    match g1.ctx.blockInsts.lookup 0 with
    | none => none
    | some insts =>
      match execInsts g1.ctx insts [] with
      | none => none
      | some env => evalValue env v

/-- The runtime integer denoted by a folded compile-time value
(`Bool(true)` is the `i1` value 1, `Bool(false)` is 0). -/
def comptimeRuntime : ComptimeVal → Option Int
  | .bool b => some (if b then 1 else 0)
  | .int i => some i
  | .undef _ => none

/-- A fresh lowering context over one open global scope, as
`IrGenContext::default()` inside `CompUnit::irgen` sets it up. -/
def gInit : IrGenContext := { symtable := { stack := [[]] } }

/-- The source function `void f(bool b) {}`: one boolean parameter. -/
def fdC3bool : FuncDef :=
  { ret_ty := .void, ident := "f", params := [{ ty := .bool, ident := "b" }], body := [] }

/-- The source function `void f(int x) {}`: one integer parameter. -/
def fdC3int : FuncDef :=
  { ret_ty := .void, ident := "f", params := [{ ty := .int, ident := "x" }], body := [] }

/-- The source function `int f() { return 1; }`. -/
def fdC9 : FuncDef :=
  { ret_ty := .int, ident := "f", params := [],
    body := [.stmt (.ret (some (Expr.const_ (.int 1))))] }

theorem lookup_mem {α : Type} {l : List (Nat × α)} {i : Nat} {k : α}
    (h : l.lookup i = some k) : (i, k) ∈ l := by
  induction l with
  | nil => exact Option.noConfusion h
  | cons p rest ih =>
    obtain ⟨j, v⟩ := p
    by_cases hij : i = j
    · subst hij
      simp only [List.lookup, beq_self_eq_true] at h
      injection h with h
      subst h
      exact List.mem_cons_self _ _
    · have hb : (i == j) = false := beq_eq_false_iff_ne.mpr hij
      simp only [List.lookup, hb] at h
      exact List.mem_cons_of_mem _ (ih h)

theorem lookup_cons_fresh {α : Type} {l : List (Nat × α)} {i : Nat} {k : α}
    {n : Nat} {v : α} (hn : ∀ p ∈ l, p.1 < n) (h : l.lookup i = some k) :
    ((n, v) :: l).lookup i = some k := by
  have hi : i < n := hn _ (lookup_mem h)
  have hb : (i == n) = false := beq_eq_false_iff_ne.mpr (Nat.ne_of_lt hi)
  simp only [List.lookup, hb]
  exact h

theorem assocSet_lookup_self {α : Type} (l : List (Nat × α)) (k : Nat) (v : α) :
    (assocSet l k v).lookup k = some v := by
  induction l with
  | nil => simp [assocSet, List.lookup]
  | cons p rest ih =>
    obtain ⟨j, w⟩ := p
    rw [assocSet]
    by_cases hjk : j = k
    · subst hjk
      simp [List.lookup]
    · have hb : (j == k) = false := beq_eq_false_iff_ne.mpr hjk
      have hb2 : (k == j) = false := beq_eq_false_iff_ne.mpr (Ne.symm hjk)
      simp only [hb, Bool.false_eq_true, if_false, List.lookup, hb2]
      exact ih

theorem assocSet_lookup_ne {α : Type} (l : List (Nat × α)) (k k2 : Nat) (v : α)
    (h : k2 ≠ k) : (assocSet l k v).lookup k2 = l.lookup k2 := by
  have hb : (k2 == k) = false := beq_eq_false_iff_ne.mpr h
  induction l with
  | nil => simp [assocSet, List.lookup, hb]
  | cons p rest ih =>
    obtain ⟨j, w⟩ := p
    rw [assocSet]
    by_cases hjk : j = k
    · subst hjk
      simp only [beq_self_eq_true, if_true, List.lookup, hb]
    · have hb2 : (j == k) = false := beq_eq_false_iff_ne.mpr hjk
      simp only [hb2, Bool.false_eq_true, if_false, List.lookup]
      cases k2 == j with
      | true => rfl
      | false => exact ih

theorem assocSet_mem {α : Type} {l : List (Nat × α)} {k : Nat} {v : α}
    {q : Nat × α} (h : q ∈ assocSet l k v) : q = (k, v) ∨ q ∈ l := by
  induction l with
  | nil => simpa [assocSet] using h
  | cons p rest ih =>
    obtain ⟨j, w⟩ := p
    rw [assocSet] at h
    by_cases hjk : j = k
    · subst hjk
      rw [if_pos (by simp)] at h
      rcases List.mem_cons.mp h with h1 | h1
      · exact Or.inl h1
      · exact Or.inr (List.mem_cons_of_mem _ h1)
    · rw [if_neg (by simpa using hjk)] at h
      rcases List.mem_cons.mp h with h1 | h1
      · exact Or.inr (h1 ▸ List.mem_cons_self _ _)
      · rcases ih h1 with h2 | h2
        · exact Or.inl h2
        · exact Or.inr (List.mem_cons_of_mem _ h2)

/-- Well-formedness of the IR arena: every allocated id is below the
fresh-id counter (true of every context the lowering builds, and what
makes fresh allocations never clobber existing ones). -/
abbrev CtxLt (ctx : Context) : Prop :=
  (∀ p ∈ ctx.insts, p.1 < ctx.nextId) ∧
  (∀ p ∈ ctx.blockInsts, p.1 < ctx.nextId) ∧
  (∀ p ∈ ctx.funcs, p.1 < ctx.nextId)

/-- The entry block of the current function, as computed by
`Decl::irgen` (`irgen.curr_func.unwrap().head(&irgen.ctx)`). -/
def entryOf (g : IrGenContext) : Option Nat :=
  match g.curr_func with
  | none => none
  | some f => Func.head g.ctx f

/-- What lowering a statement/declaration/expression inside a function
body preserves: the per-function bookkeeping fields, the function table,
arena well-formedness, all existing instructions, membership in every
block's instruction list, and the exact contents of every block other
than the current block and the entry block. -/
structure Pres (g g2 : IrGenContext) : Prop where
  curr_func : g2.curr_func = g.curr_func
  curr_block : g2.curr_block = g.curr_block
  curr_ret_slot : g2.curr_ret_slot = g.curr_ret_slot
  curr_ret_block : g2.curr_ret_block = g.curr_ret_block
  funcs : g2.ctx.funcs = g.ctx.funcs
  nextId_le : g.ctx.nextId ≤ g2.ctx.nextId
  wf : CtxLt g2.ctx
  insts : ∀ i k, g.ctx.insts.lookup i = some k → g2.ctx.insts.lookup i = some k
  blocks_sub : ∀ b l, g.ctx.blockInsts.lookup b = some l →
      ∃ l2, g2.ctx.blockInsts.lookup b = some l2 ∧ ∀ i ∈ l, i ∈ l2
  blocks_other : ∀ b, some b ≠ g.curr_block → some b ≠ entryOf g →
      g2.ctx.blockInsts.lookup b = g.ctx.blockInsts.lookup b

theorem entryOf_eq_of (g g2 : IrGenContext) (hf : g2.curr_func = g.curr_func)
    (hfn : g2.ctx.funcs = g.ctx.funcs) : entryOf g2 = entryOf g := by
  unfold entryOf Func.head
  rw [hf, hfn]

theorem Pres.refl (g : IrGenContext) (hwf : CtxLt g.ctx) : Pres g g :=
  { curr_func := rfl, curr_block := rfl, curr_ret_slot := rfl, curr_ret_block := rfl
    funcs := rfl, nextId_le := Nat.le_refl _, wf := hwf
    insts := fun _ _ h => h
    blocks_sub := fun _ l h => ⟨l, h, fun _ hi => hi⟩
    blocks_other := fun _ _ _ => rfl }

theorem Pres.trans {g1 g2 g3 : IrGenContext} (h12 : Pres g1 g2) (h23 : Pres g2 g3) :
    Pres g1 g3 :=
  { curr_func := h23.curr_func.trans h12.curr_func
    curr_block := h23.curr_block.trans h12.curr_block
    curr_ret_slot := h23.curr_ret_slot.trans h12.curr_ret_slot
    curr_ret_block := h23.curr_ret_block.trans h12.curr_ret_block
    funcs := h23.funcs.trans h12.funcs
    nextId_le := Nat.le_trans h12.nextId_le h23.nextId_le
    wf := h23.wf
    insts := fun i k h => h23.insts i k (h12.insts i k h)
    blocks_sub := fun b l h => by
      obtain ⟨l2, hl2, hsub⟩ := h12.blocks_sub b l h
      obtain ⟨l3, hl3, hsub2⟩ := h23.blocks_sub b l2 hl2
      exact ⟨l3, hl3, fun i hi => hsub2 i (hsub i hi)⟩
    blocks_other := fun b hb he => by
      rw [h23.blocks_other b (h12.curr_block ▸ hb)
        ((entryOf_eq_of g1 g2 h12.curr_func h12.funcs) ▸ he)]
      exact h12.blocks_other b hb he }

theorem emitBack_eq (g : IrGenContext) (b : Nat) (k : InstKind) :
    emitBack g b k =
      match g.ctx.blockInsts.lookup b with
      | none => none
      | some l => some (g.ctx.nextId,
          { g with ctx :=
            { nextId := g.ctx.nextId + 1
              insts := (g.ctx.nextId, k) :: g.ctx.insts
              blockInsts := assocSet g.ctx.blockInsts b (l ++ [g.ctx.nextId])
              funcs := g.ctx.funcs } }) := by
  cases h : g.ctx.blockInsts.lookup b <;>
    simp [emitBack, Block.push_back, Inst.new, h]

theorem emitFront_eq (g : IrGenContext) (b : Nat) (k : InstKind) :
    emitFront g b k =
      match g.ctx.blockInsts.lookup b with
      | none => none
      | some l => some (g.ctx.nextId,
          { g with ctx :=
            { nextId := g.ctx.nextId + 1
              insts := (g.ctx.nextId, k) :: g.ctx.insts
              blockInsts := assocSet g.ctx.blockInsts b (g.ctx.nextId :: l)
              funcs := g.ctx.funcs } }) := by
  cases h : g.ctx.blockInsts.lookup b <;>
    simp [emitFront, Block.push_front, Inst.new, h]

theorem emit_pres_core (g : IrGenContext) (b : Nat) (k : InstKind) (l lNew : List Nat)
    (hwf : CtxLt g.ctx)
    (hb : some b = g.curr_block ∨ some b = entryOf g)
    (hl : g.ctx.blockInsts.lookup b = some l)
    (hsub : ∀ i ∈ l, i ∈ lNew) :
    Pres g { g with ctx :=
      { nextId := g.ctx.nextId + 1
        insts := (g.ctx.nextId, k) :: g.ctx.insts
        blockInsts := assocSet g.ctx.blockInsts b lNew
        funcs := g.ctx.funcs } } := by
  obtain ⟨hwf1, hwf2, hwf3⟩ := hwf
  refine
    { curr_func := rfl, curr_block := rfl, curr_ret_slot := rfl, curr_ret_block := rfl
      funcs := rfl, nextId_le := Nat.le_succ _
      wf := ⟨?_, ?_, ?_⟩
      insts := ?_, blocks_sub := ?_, blocks_other := ?_ }
  · intro p hp
    rcases List.mem_cons.mp hp with h1 | h1
    · rw [h1]; exact Nat.lt_succ_self _
    · exact Nat.lt_succ_of_lt (hwf1 p h1)
  · intro p hp
    rcases assocSet_mem hp with h1 | h1
    · rw [h1]; exact Nat.lt_succ_of_lt (hwf2 (b, l) (lookup_mem hl))
    · exact Nat.lt_succ_of_lt (hwf2 p h1)
  · intro p hp
    exact Nat.lt_succ_of_lt (hwf3 p hp)
  · intro i k2 h
    exact lookup_cons_fresh hwf1 h
  · intro b2 l0 h0
    by_cases hbb : b2 = b
    · subst hbb
      rw [h0] at hl
      injection hl with hl
      subst hl
      exact ⟨lNew, assocSet_lookup_self _ _ _, hsub⟩
    · rw [show (assocSet g.ctx.blockInsts b lNew).lookup b2 = g.ctx.blockInsts.lookup b2
        from assocSet_lookup_ne _ _ _ _ hbb]
      exact ⟨l0, h0, fun _ hi => hi⟩
  · intro b2 hcb hent
    have hbb : b2 ≠ b := by
      intro hb2
      subst hb2
      rcases hb with h1 | h1
      · exact hcb h1
      · exact hent h1
    exact assocSet_lookup_ne _ _ _ _ hbb

theorem emitBack_pres {g : IrGenContext} {b : Nat} {k : InstKind} {i : Nat}
    {g2 : IrGenContext} (hwf : CtxLt g.ctx)
    (hb : some b = g.curr_block ∨ some b = entryOf g)
    (h : emitBack g b k = some (i, g2)) :
    Pres g g2 ∧ i = g.ctx.nextId ∧ g2.ctx.insts.lookup i = some k ∧
    ∃ l, g.ctx.blockInsts.lookup b = some l ∧
      g2.ctx.blockInsts.lookup b = some (l ++ [i]) := by
  rw [emitBack_eq] at h
  cases hl : g.ctx.blockInsts.lookup b with
  | none => rw [hl] at h; exact Option.noConfusion h
  | some l =>
    rw [hl] at h
    simp only [Option.some.injEq, Prod.mk.injEq] at h
    obtain ⟨hi, hg2⟩ := h
    subst hi
    subst hg2
    refine ⟨emit_pres_core g b k l (l ++ [g.ctx.nextId]) hwf hb hl
        (fun j hj => List.mem_append_left _ hj), rfl, ?_, l, rfl, ?_⟩
    · simp [List.lookup]
    · exact assocSet_lookup_self _ _ _

theorem emitFront_pres {g : IrGenContext} {b : Nat} {k : InstKind} {i : Nat}
    {g2 : IrGenContext} (hwf : CtxLt g.ctx)
    (hb : some b = g.curr_block ∨ some b = entryOf g)
    (h : emitFront g b k = some (i, g2)) :
    Pres g g2 ∧ i = g.ctx.nextId ∧ g2.ctx.insts.lookup i = some k ∧
    ∃ l, g.ctx.blockInsts.lookup b = some l ∧
      g2.ctx.blockInsts.lookup b = some (i :: l) := by
  rw [emitFront_eq] at h
  cases hl : g.ctx.blockInsts.lookup b with
  | none => rw [hl] at h; exact Option.noConfusion h
  | some l =>
    rw [hl] at h
    simp only [Option.some.injEq, Prod.mk.injEq] at h
    obtain ⟨hi, hg2⟩ := h
    subst hi
    subst hg2
    refine ⟨emit_pres_core g b k l (g.ctx.nextId :: l) hwf hb hl
        (fun j hj => List.mem_cons_of_mem _ hj), rfl, ?_, l, rfl, ?_⟩
    · simp [List.lookup]
    · exact assocSet_lookup_self _ _ _

theorem Pres.entryOf_eq {g g2 : IrGenContext} (p : Pres g g2) : entryOf g2 = entryOf g :=
  entryOf_eq_of g g2 p.curr_func p.funcs

theorem Pres.symtable (g : IrGenContext) (st : SymbolTable) (hwf : CtxLt g.ctx) :
    Pres g { g with symtable := st } :=
  { curr_func := rfl, curr_block := rfl, curr_ret_slot := rfl, curr_ret_block := rfl
    funcs := rfl, nextId_le := Nat.le_refl _, wf := hwf
    insts := fun _ _ h => h
    blocks_sub := fun _ l h => ⟨l, h, fun _ hi => hi⟩
    blocks_other := fun _ _ _ => rfl }

theorem Inst.result_eq (ctx : Context) (i : Nat) {k : InstKind}
    (h : ctx.insts.lookup i = some k) :
    Inst.result ctx i =
      (match k with
       | .alloca _ => some (.instRes i)
       | .load _ _ => some (.instRes i)
       | .ibinary _ _ _ => some (.instRes i)
       | _ => none) := by
  simp only [Inst.result, h]
  cases k <;> rfl

theorem gen_local_expr_pres :
    ∀ (e : Expr) (g : IrGenContext) (v : Value) (g2 : IrGenContext),
      CtxLt g.ctx → g.gen_local_expr e = some (v, g2) → Pres g g2
  | .mk (.const c) ty, g, v, g2, hwf, h => by
    simp only [IrGenContext.gen_local_expr] at h
    cases hcb : g.curr_block with
    | none => rw [hcb] at h; exact Option.noConfusion h
    | some curr =>
      simp only [hcb] at h
      cases hgc : IrGenContext.gen_local_comptime c with
      | none => rw [hgc] at h; exact Option.noConfusion h
      | some val =>
        simp only [hgc, Option.some.injEq, Prod.mk.injEq] at h
        obtain ⟨_, hg⟩ := h
        subst hg
        exact Pres.refl g hwf
  | .mk (.binary op lhs rhs) ty, g, v, g2, hwf, h => by
    simp only [IrGenContext.gen_local_expr] at h
    cases hcb : g.curr_block with
    | none => rw [hcb] at h; exact Option.noConfusion h
    | some curr =>
      simp only [hcb] at h
      cases hl : g.gen_local_expr lhs with
      | none => rw [hl] at h; exact Option.noConfusion h
      | some p1 =>
        obtain ⟨lv, g1⟩ := p1
        simp only [hl] at h
        have pres1 := gen_local_expr_pres lhs g lv g1 hwf hl
        cases hr : g1.gen_local_expr rhs with
        | none => rw [hr] at h; exact Option.noConfusion h
        | some p2 =>
          obtain ⟨rv, gm⟩ := p2
          simp only [hr] at h
          have pres2 := gen_local_expr_pres rhs g1 rv gm pres1.wf hr
          cases he : emitBack gm curr (.ibinary (IrGenContext.map_int_binary_op op) lv rv) with
          | none => rw [he] at h; exact Option.noConfusion h
          | some p3 =>
            obtain ⟨inst, g3⟩ := p3
            simp only [he] at h
            have hbcur : some curr = gm.curr_block := by
              rw [pres2.curr_block, pres1.curr_block, hcb]
            have pres3 := (emitBack_pres pres2.wf (Or.inl hbcur) he).1
            cases hres : Inst.result g3.ctx inst with
            | none => rw [hres] at h; exact Option.noConfusion h
            | some res =>
              simp only [hres, Option.some.injEq, Prod.mk.injEq] at h
              obtain ⟨_, hg⟩ := h
              subst hg
              exact (pres1.trans pres2).trans pres3
  | .mk (.unary u e0) ty, g, v, g2, hwf, h => by
    simp only [IrGenContext.gen_local_expr] at h
    exact Option.noConfusion h
  | .mk (.lval ident) ty, g, v, g2, hwf, h => by
    simp only [IrGenContext.gen_local_expr] at h
    cases hcb : g.curr_block with
    | none => rw [hcb] at h; exact Option.noConfusion h
    | some curr =>
      simp only [hcb] at h
      cases hlk : g.symtable.lookup ident with
      | none => rw [hlk] at h; exact Option.noConfusion h
      | some entry =>
        simp only [hlk] at h
        cases hirv : entry.ir_value with
        | none => rw [hirv] at h; exact Option.noConfusion h
        | some irv =>
          simp only [hirv] at h
          cases hgt : IrGenContext.gen_type entry.ty with
          | none => rw [hgt] at h; exact Option.noConfusion h
          | some baseTy =>
            simp only [hgt] at h
            by_cases hp : (IrGenContext.slotOf irv).is_param = true
            · simp only [hp, if_true, Option.some.injEq, Prod.mk.injEq] at h
              obtain ⟨_, hg⟩ := h
              subst hg
              exact Pres.refl g hwf
            · simp only [hp, if_false, Bool.false_eq_true] at h
              cases he : emitBack g curr (.load (IrGenContext.slotOf irv) baseTy) with
              | none => rw [he] at h; exact Option.noConfusion h
              | some p1 =>
                obtain ⟨load, g1⟩ := p1
                simp only [he] at h
                have pres1 := (emitBack_pres hwf (Or.inl hcb.symm) he).1
                cases hres : Inst.result g1.ctx load with
                | none => rw [hres] at h; exact Option.noConfusion h
                | some res =>
                  simp only [hres, Option.some.injEq, Prod.mk.injEq] at h
                  obtain ⟨_, hg⟩ := h
                  subst hg
                  exact pres1
  | .mk (.coercion e0) ty, g, v, g2, hwf, h => by
    simp only [IrGenContext.gen_local_expr] at h
    exact Option.noConfusion h
  | .mk (.funcCall f args) ty, g, v, g2, hwf, h => by
    simp only [IrGenContext.gen_local_expr] at h
    exact Option.noConfusion h

theorem declConstDefs_pres :
    ∀ (ds : List ConstDef) (entry curr : Nat) (g g2 : IrGenContext),
      CtxLt g.ctx → some curr = g.curr_block → some entry = entryOf g →
      Decl.irgenConstDefs entry curr g ds = some g2 → Pres g g2
  | [], entry, curr, g, g2, hwf, hc, he, h => by
    simp only [Decl.irgenConstDefs, Option.some.injEq] at h
    subst h
    exact Pres.refl g hwf
  | d :: ds, entry, curr, g, g2, hwf, hc, he, h => by
    simp only [Decl.irgenConstDefs] at h
    cases hf : d.init.try_fold g.symtable with
    | none => rw [hf] at h; exact Option.noConfusion h
    | some o =>
      cases o with
      | none => rw [hf] at h; exact Option.noConfusion h
      | some comptime =>
        simp only [hf] at h
        cases hty : d.init.tyOf with
        | none => rw [hty] at h; exact Option.noConfusion h
        | some ty =>
          simp only [hty] at h
          cases hgt : IrGenContext.gen_type ty with
          | none => rw [hgt] at h; exact Option.noConfusion h
          | some irTy =>
            simp only [hgt] at h
            cases hem : emitFront g entry (.alloca irTy) with
            | none => rw [hem] at h; exact Option.noConfusion h
            | some p1 =>
              obtain ⟨slotInst, g1⟩ := p1
              simp only [hem] at h
              have pres1 := (emitFront_pres hwf (Or.inr he) hem).1
              cases hres : Inst.result g1.ctx slotInst with
              | none => rw [hres] at h; exact Option.noConfusion h
              | some slotVal =>
                simp only [hres] at h
                have pres2 : Pres g1
                    { g1 with
                      symtable := g1.symtable.insert d.ident
                        { ty := ty, comptime := some comptime,
                          ir_value := some (.value slotVal) } } :=
                  Pres.symtable g1 _ pres1.wf
                cases hg : IrGenContext.gen_local_expr
                    { g1 with
                      symtable := g1.symtable.insert d.ident
                        { ty := ty, comptime := some comptime,
                          ir_value := some (.value slotVal) } } d.init with
                | none => rw [hg] at h; exact Option.noConfusion h
                | some p2 =>
                  obtain ⟨initVal, g3⟩ := p2
                  simp only [hg] at h
                  have pres3 := gen_local_expr_pres d.init _ initVal g3 pres2.wf hg
                  cases hem2 : emitBack g3 curr (.store initVal slotVal) with
                  | none => rw [hem2] at h; exact Option.noConfusion h
                  | some p3 =>
                    obtain ⟨_, g4⟩ := p3
                    simp only [hem2] at h
                    have presTo3 := ((pres1.trans pres2).trans pres3)
                    have hc3 : some curr = g3.curr_block := by
                      rw [presTo3.curr_block]; exact hc
                    have pres4 := (emitBack_pres pres3.wf (Or.inl hc3) hem2).1
                    have presTo4 := presTo3.trans pres4
                    have he4 : some entry = entryOf g4 := by
                      rw [presTo4.entryOf_eq]; exact he
                    have hc4 : some curr = g4.curr_block := by
                      rw [presTo4.curr_block]; exact hc
                    exact presTo4.trans
                      (declConstDefs_pres ds entry curr g4 g2 presTo4.wf hc4 he4 h)

theorem declVarDefs_pres :
    ∀ (ds : List VarDef) (entry curr : Nat) (g g2 : IrGenContext),
      CtxLt g.ctx → some curr = g.curr_block → some entry = entryOf g →
      Decl.irgenVarDefs entry curr g ds = some g2 → Pres g g2
  | [], entry, curr, g, g2, hwf, hc, he, h => by
    simp only [Decl.irgenVarDefs, Option.some.injEq] at h
    subst h
    exact Pres.refl g hwf
  | d :: ds, entry, curr, g, g2, hwf, hc, he, h => by
    simp only [Decl.irgenVarDefs] at h
    cases hin : d.init with
    | none => rw [hin] at h; exact Option.noConfusion h
    | some init =>
      simp only [hin] at h
      cases hty : init.tyOf with
      | none => rw [hty] at h; exact Option.noConfusion h
      | some ty =>
        simp only [hty] at h
        cases hgt : IrGenContext.gen_type ty with
        | none => rw [hgt] at h; exact Option.noConfusion h
        | some irTy =>
          simp only [hgt] at h
          cases hem : emitFront g entry (.alloca irTy) with
          | none => rw [hem] at h; exact Option.noConfusion h
          | some p1 =>
            obtain ⟨slotInst, g1⟩ := p1
            simp only [hem] at h
            have pres1 := (emitFront_pres hwf (Or.inr he) hem).1
            cases hres : Inst.result g1.ctx slotInst with
            | none => rw [hres] at h; exact Option.noConfusion h
            | some slotVal =>
              simp only [hres] at h
              have pres2 : Pres g1
                  { g1 with
                    symtable := g1.symtable.insert d.ident
                      { ty := ty, comptime := none,
                        ir_value := some (.value slotVal) } } :=
                Pres.symtable g1 _ pres1.wf
              cases hg : IrGenContext.gen_local_expr
                  { g1 with
                    symtable := g1.symtable.insert d.ident
                      { ty := ty, comptime := none,
                        ir_value := some (.value slotVal) } } init with
              | none => rw [hg] at h; exact Option.noConfusion h
              | some p2 =>
                obtain ⟨initVal, g3⟩ := p2
                simp only [hg] at h
                have pres3 := gen_local_expr_pres init _ initVal g3 pres2.wf hg
                cases hem2 : emitBack g3 curr (.store initVal slotVal) with
                | none => rw [hem2] at h; exact Option.noConfusion h
                | some p3 =>
                  obtain ⟨_, g4⟩ := p3
                  simp only [hem2] at h
                  have presTo3 := ((pres1.trans pres2).trans pres3)
                  have hc3 : some curr = g3.curr_block := by
                    rw [presTo3.curr_block]; exact hc
                  have pres4 := (emitBack_pres pres3.wf (Or.inl hc3) hem2).1
                  have presTo4 := presTo3.trans pres4
                  have he4 : some entry = entryOf g4 := by
                    rw [presTo4.entryOf_eq]; exact he
                  have hc4 : some curr = g4.curr_block := by
                    rw [presTo4.curr_block]; exact hc
                  exact presTo4.trans
                    (declVarDefs_pres ds entry curr g4 g2 presTo4.wf hc4 he4 h)

theorem decl_irgen_pres (d : Decl) (g g2 : IrGenContext) (hwf : CtxLt g.ctx)
    (h : Decl.irgen g d = some g2) : Pres g g2 := by
  unfold Decl.irgen at h
  cases hcf : g.curr_func with
  | none => rw [hcf] at h; exact Option.noConfusion h
  | some f =>
    simp only [hcf] at h
    cases hhd : Func.head g.ctx f with
    | none => rw [hhd] at h; exact Option.noConfusion h
    | some entry_block =>
      simp only [hhd] at h
      cases hcb : g.curr_block with
      | none => rw [hcb] at h; exact Option.noConfusion h
      | some curr =>
        simp only [hcb] at h
        have he : some entry_block = entryOf g := by
          simp only [entryOf, hcf, hhd]
        cases d with
        | constDecl ty defs =>
          exact declConstDefs_pres defs entry_block curr g g2 hwf hcb.symm he h
        | varDecl ty defs =>
          exact declVarDefs_pres defs entry_block curr g g2 hwf hcb.symm he h

mutual
theorem stmt_irgen_pres :
    ∀ (s : Stmt) (g g2 : IrGenContext), CtxLt g.ctx →
      Stmt.irgen g s = some g2 → Pres g g2
  | .assign ident e, g, g2, hwf, h => by
    simp only [Stmt.irgen] at h
    cases hcb : g.curr_block with
    | none => rw [hcb] at h; exact Option.noConfusion h
    | some curr =>
      simp only [hcb] at h
      cases hlk : g.symtable.lookup ident with
      | none => rw [hlk] at h; exact Option.noConfusion h
      | some entry =>
        simp only [hlk] at h
        cases hirv : entry.ir_value with
        | none => rw [hirv] at h; exact Option.noConfusion h
        | some irv =>
          simp only [hirv] at h
          cases hg : g.gen_local_expr e with
          | none => rw [hg] at h; exact Option.noConfusion h
          | some p1 =>
            obtain ⟨val, g1⟩ := p1
            simp only [hg] at h
            have pres1 := gen_local_expr_pres e g val g1 hwf hg
            cases hem : emitBack g1 curr (.store val (IrGenContext.slotOf irv)) with
            | none => rw [hem] at h; exact Option.noConfusion h
            | some p2 =>
              obtain ⟨_, gf⟩ := p2
              simp only [hem, Option.some.injEq] at h
              subst h
              have hc1 : some curr = g1.curr_block := by
                rw [pres1.curr_block, hcb]
              exact pres1.trans (emitBack_pres pres1.wf (Or.inl hc1) hem).1
  | .exprStmt none, g, g2, hwf, h => by
    simp only [Stmt.irgen] at h
    cases hcb : g.curr_block with
    | none => rw [hcb] at h; exact Option.noConfusion h
    | some curr =>
      simp only [hcb, Option.some.injEq] at h
      subst h
      exact Pres.refl g hwf
  | .exprStmt (some e), g, g2, hwf, h => by
    simp only [Stmt.irgen] at h
    cases hcb : g.curr_block with
    | none => rw [hcb] at h; exact Option.noConfusion h
    | some curr =>
      simp only [hcb] at h
      cases hg : g.gen_local_expr e with
      | none => rw [hg] at h; exact Option.noConfusion h
      | some p1 =>
        obtain ⟨val, g1⟩ := p1
        simp only [hg, Option.some.injEq] at h
        subst h
        exact gen_local_expr_pres e g val _ hwf hg
  | .block items, g, g2, hwf, h => by
    simp only [Stmt.irgen] at h
    split at h
    · exact Option.noConfusion h
    · split at h
      · exact Option.noConfusion h
      · rename_i g1 hit
        simp only [Option.some.injEq] at h
        subst h
        have pres0 : Pres g { g with symtable := g.symtable.enter_scope } :=
          Pres.symtable g _ hwf
        have pres1 := items_irgen_pres items _ g1 pres0.wf hit
        exact (pres0.trans pres1).trans (Pres.symtable g1 _ pres1.wf)
  | .sIf c t e, g, g2, hwf, h => by
    simp only [Stmt.irgen] at h
    exact Option.noConfusion h
  | .sWhile c b, g, g2, hwf, h => by
    simp only [Stmt.irgen] at h
    exact Option.noConfusion h
  | .sBreak, g, g2, hwf, h => by
    simp only [Stmt.irgen] at h
    exact Option.noConfusion h
  | .sContinue, g, g2, hwf, h => by
    simp only [Stmt.irgen] at h
    exact Option.noConfusion h
  | .ret (some e), g, g2, hwf, h => by
    simp only [Stmt.irgen] at h
    cases hcb : g.curr_block with
    | none => rw [hcb] at h; exact Option.noConfusion h
    | some curr =>
      simp only [hcb] at h
      cases hg : g.gen_local_expr e with
      | none => rw [hg] at h; exact Option.noConfusion h
      | some p1 =>
        obtain ⟨val, g1⟩ := p1
        simp only [hg] at h
        have pres1 := gen_local_expr_pres e g val g1 hwf hg
        cases hrs : g1.curr_ret_slot with
        | none => rw [hrs] at h; exact Option.noConfusion h
        | some slot =>
          simp only [hrs] at h
          cases hcb1 : g1.curr_block with
          | none => rw [hcb1] at h; exact Option.noConfusion h
          | some curr1 =>
            simp only [hcb1] at h
            cases hem : emitBack g1 curr1 (.store val slot) with
            | none => rw [hem] at h; exact Option.noConfusion h
            | some p2 =>
              obtain ⟨_, gm⟩ := p2
              simp only [hem] at h
              have pres2 := (emitBack_pres pres1.wf (Or.inl hcb1.symm) hem).1
              cases hrb : gm.curr_ret_block with
              | none => rw [hrb] at h; exact Option.noConfusion h
              | some rb =>
                simp only [hrb] at h
                cases hcb2 : gm.curr_block with
                | none => rw [hcb2] at h; exact Option.noConfusion h
                | some curr2 =>
                  simp only [hcb2] at h
                  cases hem2 : emitBack gm curr2 (.br rb) with
                  | none => rw [hem2] at h; exact Option.noConfusion h
                  | some p3 =>
                    obtain ⟨_, gf⟩ := p3
                    simp only [hem2, Option.some.injEq] at h
                    subst h
                    exact (pres1.trans pres2).trans
                      (emitBack_pres pres2.wf (Or.inl hcb2.symm) hem2).1
  | .ret none, g, g2, hwf, h => by
    simp only [Stmt.irgen] at h
    cases hcb : g.curr_block with
    | none => rw [hcb] at h; exact Option.noConfusion h
    | some curr =>
      simp only [hcb] at h
      cases hrb : g.curr_ret_block with
      | none => rw [hrb] at h; exact Option.noConfusion h
      | some rb =>
        simp only [hrb] at h
        cases hem : emitBack g curr (.br rb) with
        | none => rw [hem] at h; exact Option.noConfusion h
        | some p1 =>
          obtain ⟨_, gf⟩ := p1
          simp only [hem, Option.some.injEq] at h
          subst h
          exact (emitBack_pres hwf (Or.inl hcb.symm) hem).1

theorem items_irgen_pres :
    ∀ (items : List BlockItem) (g g2 : IrGenContext), CtxLt g.ctx →
      Block.irgenItems g items = some g2 → Pres g g2
  | [], g, g2, hwf, h => by
    simp only [Block.irgenItems, Option.some.injEq] at h
    subst h
    exact Pres.refl g hwf
  | .decl d :: rest, g, g2, hwf, h => by
    simp only [Block.irgenItems] at h
    cases hd : Decl.irgen g d with
    | none => rw [hd] at h; exact Option.noConfusion h
    | some g1 =>
      simp only [hd] at h
      have pres1 := decl_irgen_pres d g g1 hwf hd
      exact pres1.trans (items_irgen_pres rest g1 g2 pres1.wf h)
  | .stmt s :: rest, g, g2, hwf, h => by
    simp only [Block.irgenItems] at h
    cases hs : Stmt.irgen g s with
    | none => rw [hs] at h; exact Option.noConfusion h
    | some g1 =>
      simp only [hs] at h
      have pres1 := stmt_irgen_pres s g g1 hwf hs
      exact pres1.trans (items_irgen_pres rest g1 g2 pres1.wf h)
end

theorem block_irgen_pres (items : List BlockItem) (g g2 : IrGenContext)
    (hwf : CtxLt g.ctx) (h : Block.irgen g items = some g2) : Pres g g2 := by
  unfold Block.irgen at h
  split at h
  · exact Option.noConfusion h
  · rename_i g1 hit
    simp only [Option.some.injEq] at h
    subst h
    have pres0 : Pres g { g with symtable := g.symtable.enter_scope } :=
      Pres.symtable g _ hwf
    have pres1 := items_irgen_pres items _ g1 pres0.wf hit
    exact (pres0.trans pres1).trans (Pres.symtable g1 _ pres1.wf)

theorem SymbolTable.lookup_insert_self (st : SymbolTable) (name : String)
    (e : SymbolEntry) (hne : st.stack ≠ []) :
    (st.insert name e).lookup name = some e := by
  obtain ⟨stk, crt⟩ := st
  cases stk with
  | nil => exact absurd rfl hne
  | cons s rest =>
    simp [SymbolTable.insert, SymbolTable.lookup, SymbolTable.lookupGo,
      Scope.insert, Scope.get]

theorem SymbolTable.lookup_insert_ne (st : SymbolTable) (name name2 : String)
    (e : SymbolEntry) (h : name2 ≠ name) :
    (st.insert name e).lookup name2 = st.lookup name2 := by
  obtain ⟨stk, crt⟩ := st
  cases stk with
  | nil => rfl
  | cons s rest =>
    simp [SymbolTable.insert, SymbolTable.lookup, SymbolTable.lookupGo,
      Scope.insert, Scope.get, beq_eq_false_iff_ne.mpr (Ne.symm h)]

theorem SymbolTable.insert_stack_ne (st : SymbolTable) (name : String)
    (e : SymbolEntry) (hne : st.stack ≠ []) : (st.insert name e).stack ≠ [] := by
  obtain ⟨stk, crt⟩ := st
  cases stk with
  | nil => exact absurd rfl hne
  | cons s rest => simp [SymbolTable.insert]

theorem addParams_facts :
    ∀ (ps : List FuncFParam) (f : Nat) (g g1 : IrGenContext),
      FuncDef.addParams f g ps = some g1 →
      g1.ctx.nextId = g.ctx.nextId ∧
      g1.ctx.insts = g.ctx.insts ∧
      g1.ctx.blockInsts = g.ctx.blockInsts ∧
      g1.curr_func = g.curr_func ∧ g1.curr_block = g.curr_block ∧
      g1.curr_ret_slot = g.curr_ret_slot ∧ g1.curr_ret_block = g.curr_ret_block ∧
      (∀ f2, (g1.ctx.funcs.lookup f2).map FuncData.blocks =
        (g.ctx.funcs.lookup f2).map FuncData.blocks) ∧
      (CtxLt g.ctx → CtxLt g1.ctx) ∧
      (g.symtable.stack ≠ [] → g1.symtable.stack ≠ [])
  | [], f, g, g1, h => by
    simp only [FuncDef.addParams, Option.some.injEq] at h
    subst h
    exact ⟨rfl, rfl, rfl, rfl, rfl, rfl, rfl, fun _ => rfl, fun hw => hw, fun hs => hs⟩
  | p :: ps, f, g, g1, h => by
    simp only [FuncDef.addParams] at h
    cases hgt : IrGenContext.gen_type p.ty with
    | none => rw [hgt] at h; exact Option.noConfusion h
    | some irTy =>
      simp only [hgt] at h
      cases hap : Func.add_param g.ctx f irTy with
      | none => rw [hap] at h; exact Option.noConfusion h
      | some p1 =>
        obtain ⟨pv, ctx1⟩ := p1
        simp only [hap] at h
        have ih := addParams_facts ps f _ g1 h
        unfold Func.add_param at hap
        cases hlf : g.ctx.funcs.lookup f with
        | none => rw [hlf] at hap; exact Option.noConfusion hap
        | some fd0 =>
          rw [hlf] at hap
          simp only [Option.some.injEq, Prod.mk.injEq] at hap
          obtain ⟨hpv, hctx1⟩ := hap
          subst hctx1
          obtain ⟨ih1, ih2, ih3, ih4, ih5, ih6, ih7, ih8, ih9, ih10⟩ := ih
          refine ⟨ih1, ih2, ih3, ih4, ih5, ih6, ih7, ?_, ?_, ?_⟩
          · intro f2
            rw [ih8 f2]
            by_cases hf2 : f2 = f
            · subst hf2
              rw [assocSet_lookup_self, hlf]
              rfl
            · rw [assocSet_lookup_ne _ _ _ _ hf2]
          · intro hw
            apply ih9
            obtain ⟨hw1, hw2, hw3⟩ := hw
            refine ⟨hw1, hw2, ?_⟩
            intro q hq
            rcases assocSet_mem hq with h1 | h1
            · rw [h1]; exact hw3 (f, fd0) (lookup_mem hlf)
            · exact hw3 q h1
          · intro hs
            exact ih10 (SymbolTable.insert_stack_ne _ _ _ hs)

theorem addParams_lookup_other :
    ∀ (ps : List FuncFParam) (f : Nat) (g g1 : IrGenContext) (name : String),
      FuncDef.addParams f g ps = some g1 →
      name ∉ List.map FuncFParam.ident ps →
      g1.symtable.lookup name = g.symtable.lookup name
  | [], f, g, g1, name, h, hn => by
    simp only [FuncDef.addParams, Option.some.injEq] at h
    subst h
    rfl
  | q :: ps, f, g, g1, name, h, hn => by
    simp only [FuncDef.addParams] at h
    cases hgt : IrGenContext.gen_type q.ty with
    | none => rw [hgt] at h; exact Option.noConfusion h
    | some irTy =>
      simp only [hgt] at h
      cases hap : Func.add_param g.ctx f irTy with
      | none => rw [hap] at h; exact Option.noConfusion h
      | some p1 =>
        obtain ⟨pv, ctx1⟩ := p1
        simp only [hap] at h
        have hn1 : name ≠ q.ident := by
          intro he
          exact hn (by rw [he]; exact List.mem_cons_self _ _)
        have hn2 : name ∉ List.map FuncFParam.ident ps := by
          intro he
          exact hn (List.mem_cons_of_mem _ he)
        rw [addParams_lookup_other ps f _ g1 name h hn2]
        exact SymbolTable.lookup_insert_ne _ _ _ _ hn1

theorem addParams_binds :
    ∀ (ps : List FuncFParam) (f : Nat) (g g1 : IrGenContext),
      (List.map FuncFParam.ident ps).Nodup →
      g.symtable.stack ≠ [] →
      FuncDef.addParams f g ps = some g1 →
      ∀ p ∈ ps, ∃ kidx, g1.symtable.lookup p.ident =
        some { ty := p.ty, comptime := none, ir_value := some (.value (.param f kidx)) }
  | [], f, g, g1, hnd, hs, h, p, hp => absurd hp (List.not_mem_nil p)
  | q :: ps, f, g, g1, hnd, hs, h, p, hp => by
    simp only [FuncDef.addParams] at h
    cases hgt : IrGenContext.gen_type q.ty with
    | none => rw [hgt] at h; exact Option.noConfusion h
    | some irTy =>
      simp only [hgt] at h
      cases hap : Func.add_param g.ctx f irTy with
      | none => rw [hap] at h; exact Option.noConfusion h
      | some p1 =>
        obtain ⟨pv, ctx1⟩ := p1
        simp only [hap] at h
        have hpv : ∃ kidx, pv = Value.param f kidx := by
          unfold Func.add_param at hap
          cases hlf : g.ctx.funcs.lookup f with
          | none => rw [hlf] at hap; exact Option.noConfusion hap
          | some fd0 =>
            rw [hlf] at hap
            simp only [Option.some.injEq, Prod.mk.injEq] at hap
            exact ⟨fd0.params.length, hap.1.symm⟩
        rw [List.map_cons, List.nodup_cons] at hnd
        obtain ⟨hnd1, hnd2⟩ := hnd
        rcases List.mem_cons.mp hp with hpq | hpq
        · subst hpq
          obtain ⟨kidx, hpveq⟩ := hpv
          subst hpveq
          refine ⟨kidx, ?_⟩
          rw [addParams_lookup_other ps f _ g1 p.ident h hnd1]
          exact SymbolTable.lookup_insert_self _ _ _ hs
        · exact addParams_binds ps f _ g1 hnd2
            (SymbolTable.insert_stack_ne _ _ _ hs) h p hpq

theorem paramSlots_pres :
    ∀ (ps : List FuncFParam) (blk : Nat) (g g2 : IrGenContext),
      CtxLt g.ctx → some blk = g.curr_block →
      FuncDef.paramSlots blk g ps = some g2 →
      Pres g g2 ∧
      (∀ name, name ∉ List.map FuncFParam.ident ps →
        g2.symtable.lookup name = g.symtable.lookup name) ∧
      (g.symtable.stack ≠ [] → g2.symtable.stack ≠ [])
  | [], blk, g, g2, hwf, hblk, h => by
    simp only [FuncDef.paramSlots, Option.some.injEq] at h
    subst h
    exact ⟨Pres.refl g hwf, fun _ _ => rfl, fun hs => hs⟩
  | p :: ps, blk, g, g2, hwf, hblk, h => by
    simp only [FuncDef.paramSlots] at h
    by_cases hint : p.ty.is_int = true
    · simp only [hint, if_true] at h
      cases hgt : IrGenContext.gen_type p.ty with
      | none => rw [hgt] at h; exact Option.noConfusion h
      | some irTy =>
        simp only [hgt] at h
        cases hem : emitFront g blk (.alloca irTy) with
        | none => rw [hem] at h; exact Option.noConfusion h
        | some p1 =>
          obtain ⟨slotInst, g1⟩ := p1
          simp only [hem] at h
          have pres1 := (emitFront_pres hwf (Or.inl hblk) hem).1
          cases hres : Inst.result g1.ctx slotInst with
          | none => rw [hres] at h; exact Option.noConfusion h
          | some slotVal =>
            simp only [hres] at h
            cases hlk : g1.symtable.lookup p.ident with
            | none => rw [hlk] at h; exact Option.noConfusion h
            | some entry =>
              simp only [hlk] at h
              cases hirv : entry.ir_value with
              | none => rw [hirv] at h; exact Option.noConfusion h
              | some irv =>
                simp only [hirv] at h
                cases hup : irv.unwrap_value with
                | none => rw [hup] at h; exact Option.noConfusion h
                | some pv =>
                  simp only [hup] at h
                  cases hem2 : emitBack g1 blk (.store pv slotVal) with
                  | none => rw [hem2] at h; exact Option.noConfusion h
                  | some p2 =>
                    obtain ⟨_, gm⟩ := p2
                    simp only [hem2] at h
                    have hblk1 : some blk = g1.curr_block := by
                      rw [pres1.curr_block]; exact hblk
                    have pres2 := (emitBack_pres pres1.wf (Or.inl hblk1) hem2).1
                    have presIns : Pres gm
                        { gm with
                          symtable := gm.symtable.insert p.ident
                            { ty := p.ty, comptime := none,
                              ir_value := some (.value slotVal) } } :=
                      Pres.symtable gm _ pres2.wf
                    have presTo := (pres1.trans pres2).trans presIns
                    have hblk2 : some blk =
                        ({ gm with
                          symtable := gm.symtable.insert p.ident
                            { ty := p.ty, comptime := none,
                              ir_value := some (.value slotVal) } } : IrGenContext).curr_block := by
                      rw [presTo.curr_block]; exact hblk
                    obtain ⟨ihp, ihl, ihs⟩ :=
                      paramSlots_pres ps blk _ g2 presTo.wf hblk2 h
                    refine ⟨presTo.trans ihp, ?_, ?_⟩
                    · intro name hn
                      have hn1 : name ≠ p.ident := by
                        intro he
                        exact hn (by rw [he]; exact List.mem_cons_self _ _)
                      have hn2 : name ∉ List.map FuncFParam.ident ps := by
                        intro he
                        exact hn (List.mem_cons_of_mem _ he)
                      rw [ihl name hn2]
                      show (gm.symtable.insert p.ident _).lookup name = _
                      rw [SymbolTable.lookup_insert_ne _ _ _ _ hn1]
                      have hg1sym : g1.symtable = g.symtable := by
                        rw [show g1.symtable = g.symtable from by
                          rw [emitFront_eq] at hem
                          cases hl : g.ctx.blockInsts.lookup blk with
                          | none => rw [hl] at hem; exact Option.noConfusion hem
                          | some l =>
                            rw [hl] at hem
                            simp only [Option.some.injEq, Prod.mk.injEq] at hem
                            rw [← hem.2]]
                      have hgmsym : gm.symtable = g1.symtable := by
                        rw [emitBack_eq] at hem2
                        cases hl : g1.ctx.blockInsts.lookup blk with
                        | none => rw [hl] at hem2; exact Option.noConfusion hem2
                        | some l =>
                          rw [hl] at hem2
                          simp only [Option.some.injEq, Prod.mk.injEq] at hem2
                          rw [← hem2.2]
                      rw [hgmsym, hg1sym]
                    · intro hs
                      apply ihs
                      have hg1sym : g1.symtable = g.symtable := by
                        rw [emitFront_eq] at hem
                        cases hl : g.ctx.blockInsts.lookup blk with
                        | none => rw [hl] at hem; exact Option.noConfusion hem
                        | some l =>
                          rw [hl] at hem
                          simp only [Option.some.injEq, Prod.mk.injEq] at hem
                          rw [← hem.2]
                      have hgmsym : gm.symtable = g1.symtable := by
                        rw [emitBack_eq] at hem2
                        cases hl : g1.ctx.blockInsts.lookup blk with
                        | none => rw [hl] at hem2; exact Option.noConfusion hem2
                        | some l =>
                          rw [hl] at hem2
                          simp only [Option.some.injEq, Prod.mk.injEq] at hem2
                          rw [← hem2.2]
                      show (gm.symtable.insert p.ident _).stack ≠ []
                      apply SymbolTable.insert_stack_ne
                      rw [hgmsym, hg1sym]
                      exact hs
    · simp only [hint, Bool.false_eq_true, if_false] at h
      obtain ⟨ihp, ihl, ihs⟩ := paramSlots_pres ps blk g g2 hwf hblk h
      refine ⟨ihp, ?_, ihs⟩
      intro name hn
      exact ihl name (fun he => hn (List.mem_cons_of_mem _ he))

theorem emitFront_symtable {g : IrGenContext} {b : Nat} {k : InstKind} {i : Nat}
    {g1 : IrGenContext} (h : emitFront g b k = some (i, g1)) :
    g1.symtable = g.symtable := by
  rw [emitFront_eq] at h
  cases hl : g.ctx.blockInsts.lookup b with
  | none => rw [hl] at h; exact Option.noConfusion h
  | some l =>
    rw [hl] at h
    simp only [Option.some.injEq, Prod.mk.injEq] at h
    rw [← h.2]

theorem emitBack_symtable {g : IrGenContext} {b : Nat} {k : InstKind} {i : Nat}
    {g1 : IrGenContext} (h : emitBack g b k = some (i, g1)) :
    g1.symtable = g.symtable := by
  rw [emitBack_eq] at h
  cases hl : g.ctx.blockInsts.lookup b with
  | none => rw [hl] at h; exact Option.noConfusion h
  | some l =>
    rw [hl] at h
    simp only [Option.some.injEq, Prod.mk.injEq] at h
    rw [← h.2]

theorem paramSlots_c3 :
    ∀ (ps : List FuncFParam) (blk : Nat) (g g2 : IrGenContext),
      (List.map FuncFParam.ident ps).Nodup →
      CtxLt g.ctx → some blk = g.curr_block →
      g.symtable.stack ≠ [] →
      (∀ p ∈ ps, ∃ pv : Value, pv.is_param = true ∧
        g.symtable.lookup p.ident =
          some { ty := p.ty, comptime := none, ir_value := some (.value pv) }) →
      FuncDef.paramSlots blk g ps = some g2 →
      ∀ p ∈ ps, p.ty = .int →
        ∃ aId sId pv, pv.is_param = true ∧
          g2.ctx.insts.lookup aId = some (.alloca .i32) ∧
          g2.ctx.insts.lookup sId = some (.store pv (.instRes aId)) ∧
          (∃ l, g2.ctx.blockInsts.lookup blk = some l ∧ aId ∈ l ∧ sId ∈ l) ∧
          g2.symtable.lookup p.ident =
            some { ty := .int, comptime := none,
                   ir_value := some (.value (.instRes aId)) } ∧
          (Value.instRes aId).is_param = false
  | [], blk, g, g2, hnd, hwf, hblk, hs, hbind, h, p, hp, _ => absurd hp (List.not_mem_nil p)
  | q :: ps, blk, g, g2, hnd, hwf, hblk, hs, hbind, h, p, hp, hpint => by
    simp only [FuncDef.paramSlots] at h
    rw [List.map_cons, List.nodup_cons] at hnd
    obtain ⟨hnd1, hnd2⟩ := hnd
    by_cases hint : q.ty.is_int = true
    · simp only [hint, if_true] at h
      cases hgt : IrGenContext.gen_type q.ty with
      | none => rw [hgt] at h; exact Option.noConfusion h
      | some irTy =>
        simp only [hgt] at h
        cases hem : emitFront g blk (.alloca irTy) with
        | none => rw [hem] at h; exact Option.noConfusion h
        | some p1 =>
          obtain ⟨slotInst, g1⟩ := p1
          simp only [hem] at h
          obtain ⟨pres1, hslot, hakind, l0, hl0, hl0b⟩ :=
            emitFront_pres hwf (Or.inl hblk) hem
          cases hres : Inst.result g1.ctx slotInst with
          | none => rw [hres] at h; exact Option.noConfusion h
          | some slotVal =>
            simp only [hres] at h
            have hslotVal : slotVal = Value.instRes slotInst := by
              have h2 := Inst.result_eq g1.ctx slotInst hakind
              rw [hres] at h2
              simpa using h2
            cases hlk : g1.symtable.lookup q.ident with
            | none => rw [hlk] at h; exact Option.noConfusion h
            | some entry =>
              simp only [hlk] at h
              cases hirv : entry.ir_value with
              | none => rw [hirv] at h; exact Option.noConfusion h
              | some irv =>
                simp only [hirv] at h
                cases hup : irv.unwrap_value with
                | none => rw [hup] at h; exact Option.noConfusion h
                | some pv =>
                  simp only [hup] at h
                  cases hem2 : emitBack g1 blk (.store pv slotVal) with
                  | none => rw [hem2] at h; exact Option.noConfusion h
                  | some p2 =>
                    obtain ⟨sIn, gm⟩ := p2
                    simp only [hem2] at h
                    have hblk1 : some blk = g1.curr_block := by
                      rw [pres1.curr_block]; exact hblk
                    obtain ⟨pres2, hsid, hskind, l1, hl1, hl1b⟩ :=
                      emitBack_pres pres1.wf (Or.inl hblk1) hem2
                    have presIns : Pres gm
                        { gm with
                          symtable := gm.symtable.insert q.ident
                            { ty := q.ty, comptime := none,
                              ir_value := some (.value slotVal) } } :=
                      Pres.symtable gm _ pres2.wf
                    have presTo := (pres1.trans pres2).trans presIns
                    have hblk2 : some blk =
                        ({ gm with
                          symtable := gm.symtable.insert q.ident
                            { ty := q.ty, comptime := none,
                              ir_value := some (.value slotVal) } } : IrGenContext).curr_block := by
                      rw [presTo.curr_block]; exact hblk
                    have hgm_stack : gm.symtable.stack ≠ [] := by
                      rw [emitBack_symtable hem2, emitFront_symtable hem]
                      exact hs
                    have hstack2 :
                        ({ gm with
                          symtable := gm.symtable.insert q.ident
                            { ty := q.ty, comptime := none,
                              ir_value := some (.value slotVal) } } : IrGenContext).symtable.stack ≠ [] :=
                      SymbolTable.insert_stack_ne _ _ _ hgm_stack
                    -- identify pv with the bound incoming parameter value
                    obtain ⟨pv0, hpv0, hlk0⟩ := hbind q (List.mem_cons_self _ _)
                    have hentry : entry =
                        { ty := q.ty, comptime := none, ir_value := some (.value pv0) } := by
                      rw [emitFront_symtable hem, hlk0] at hlk
                      injection hlk with hlk
                      exact hlk.symm
                    have hpveq : pv = pv0 := by
                      rw [hentry] at hirv
                      injection hirv with hirv
                      rw [← hirv] at hup
                      simp only [IrGenResult.unwrap_value] at hup
                      injection hup with hup
                      exact hup.symm
                    -- the binding hypothesis for the remaining parameters
                    have hbind2 : ∀ p2 ∈ ps, ∃ pv2 : Value, pv2.is_param = true ∧
                        ({ gm with
                          symtable := gm.symtable.insert q.ident
                            { ty := q.ty, comptime := none,
                              ir_value := some (.value slotVal) } } : IrGenContext).symtable.lookup p2.ident =
                          some { ty := p2.ty, comptime := none,
                                 ir_value := some (.value pv2) } := by
                      intro p2 hp2
                      obtain ⟨pv2, hpv2, hlk2⟩ := hbind p2 (List.mem_cons_of_mem _ hp2)
                      refine ⟨pv2, hpv2, ?_⟩
                      have hne : p2.ident ≠ q.ident := by
                        intro he
                        exact hnd1 (he ▸ List.mem_map_of_mem FuncFParam.ident hp2)
                      show (gm.symtable.insert q.ident _).lookup p2.ident = _
                      rw [SymbolTable.lookup_insert_ne _ _ _ _ hne]
                      rw [emitBack_symtable hem2, emitFront_symtable hem]
                      exact hlk2
                    rcases List.mem_cons.mp hp with hpq | hpq
                    · -- the head parameter
                      subst hpq
                      have hirTy : irTy = IrTy.i32 := by
                        rw [hpint] at hgt
                        simp only [IrGenContext.gen_type, Option.some.injEq] at hgt
                        exact hgt.symm
                      obtain ⟨ihp, ihl, ihs⟩ :=
                        paramSlots_pres ps blk _ g2 presTo.wf hblk2 h
                      have hl1eq : l1 = slotInst :: l0 := by
                        rw [hl0b] at hl1
                        injection hl1 with hl1
                        exact hl1.symm
                      refine ⟨slotInst, sIn, pv, hpveq ▸ hpv0, ?_, ?_, ?_, ?_, rfl⟩
                      · exact ihp.insts _ _ (pres2.insts _ _ (hirTy ▸ hakind))
                      · exact ihp.insts _ _ (hslotVal ▸ hskind)
                      · obtain ⟨l2, hl2, hsub⟩ := ihp.blocks_sub blk (l1 ++ [sIn]) hl1b
                        refine ⟨l2, hl2, ?_, ?_⟩
                        · exact hsub slotInst (by rw [hl1eq]; simp)
                        · exact hsub sIn (by simp)
                      · rw [ihl p.ident hnd1]
                        show (gm.symtable.insert p.ident
                          { ty := p.ty, comptime := none,
                            ir_value := some (.value slotVal) }).lookup p.ident = _
                        rw [SymbolTable.lookup_insert_self _ _ _ hgm_stack, hpint, hslotVal]
                    · -- a later parameter: recurse
                      exact paramSlots_c3 ps blk _ g2 hnd2 presTo.wf hblk2 hstack2
                        hbind2 h p hpq hpint
    · simp only [hint, Bool.false_eq_true, if_false] at h
      rcases List.mem_cons.mp hp with hpq | hpq
      · subst hpq
        rw [hpint] at hint
        exact absurd rfl hint
      · exact paramSlots_c3 ps blk g g2 hnd2 hwf hblk hs
          (fun p2 hp2 => hbind p2 (List.mem_cons_of_mem _ hp2)) h p hpq hpint

theorem SymbolTable.insert_upper_stack_ne (st : SymbolTable) (name : String)
    (e : SymbolEntry) (u : Nat) (hne : st.stack ≠ []) :
    (st.insert_upper name e u).stack ≠ [] := by
  obtain ⟨stk, crt⟩ := st
  cases stk with
  | nil => exact absurd rfl hne
  | cons s rest =>
    cases u with
    | zero => simp [SymbolTable.insert_upper, SymbolTable.insertUpperGo]
    | succ u2 => simp [SymbolTable.insert_upper, SymbolTable.insertUpperGo]

theorem lookup_self_cons {α : Type} (l : List (Nat × α)) (k : Nat) (v : α) :
    ((k, v) :: l).lookup k = some v := by
  simp [List.lookup]

theorem lookup_cons_ne {α : Type} (l : List (Nat × α)) (j i : Nat) (v : α)
    (hne : i ≠ j) : ((j, v) :: l).lookup i = l.lookup i := by
  have hb : (i == j) = false := beq_eq_false_iff_ne.mpr hne
  simp only [List.lookup, hb]

theorem lookup_self_cons_map_blocks (l : List (Nat × FuncData)) (k : Nat) (v : FuncData) :
    (((k, v) :: l).lookup k).map FuncData.blocks = some v.blocks := by
  rw [lookup_self_cons]
  rfl

theorem ctxlt_after_funcblock (ctx : Context) (hwf : CtxLt ctx) (fd0 : FuncData) :
    CtxLt { nextId := ctx.nextId + 1 + 1
            insts := ctx.insts
            blockInsts := (ctx.nextId + 1, []) :: ctx.blockInsts
            funcs := (ctx.nextId, fd0) :: ctx.funcs } := by
  obtain ⟨h1, h2, h3⟩ := hwf
  refine ⟨?_, ?_, ?_⟩
  · intro p hp
    have := h1 p hp
    show p.1 < ctx.nextId + 1 + 1
    omega
  · intro p hp
    show p.1 < ctx.nextId + 1 + 1
    rcases List.mem_cons.mp hp with he | he
    · subst he
      show ctx.nextId + 1 < ctx.nextId + 1 + 1
      omega
    · have := h2 p he
      omega
  · intro p hp
    show p.1 < ctx.nextId + 1 + 1
    rcases List.mem_cons.mp hp with he | he
    · subst he
      show ctx.nextId < ctx.nextId + 1 + 1
      omega
    · have := h3 p he
      omega

theorem ctxlt_after_blocknew (ctx : Context) (hwf : CtxLt ctx) :
    CtxLt { nextId := ctx.nextId + 1
            insts := ctx.insts
            blockInsts := (ctx.nextId, []) :: ctx.blockInsts
            funcs := ctx.funcs } := by
  obtain ⟨h1, h2, h3⟩ := hwf
  refine ⟨?_, ?_, ?_⟩
  · intro p hp
    have := h1 p hp
    show p.1 < ctx.nextId + 1
    omega
  · intro p hp
    show p.1 < ctx.nextId + 1
    rcases List.mem_cons.mp hp with he | he
    · subst he
      show ctx.nextId < ctx.nextId + 1
      omega
    · have := h2 p he
      omega
  · intro p hp
    have := h3 p hp
    show p.1 < ctx.nextId + 1
    omega

theorem irgenSetup_spec (g : IrGenContext) (fd : FuncDef)
    (gPre : IrGenContext) (f blk retB : Nat)
    (hwf : CtxLt g.ctx)
    (hslot : g.curr_ret_slot = none)
    (h : FuncDef.irgenSetup g fd = some (gPre, f, blk, retB)) :
    CtxLt gPre.ctx ∧
    gPre.curr_func = some f ∧
    gPre.curr_block = some blk ∧
    gPre.curr_ret_block = some retB ∧
    retB ≠ blk ∧
    (gPre.ctx.funcs.lookup f).map FuncData.blocks = some [blk] ∧
    gPre.ctx.blockInsts.lookup retB = some [] ∧
    entryOf gPre = some blk ∧
    gPre.symtable.stack ≠ [] ∧
    (fd.ret_ty.is_void = true → gPre.curr_ret_slot = none) ∧
    (fd.ret_ty.is_void = false → ∃ aId irTy,
      IrGenContext.gen_type fd.ret_ty = some irTy ∧
      gPre.curr_ret_slot = some (.instRes aId) ∧
      gPre.ctx.insts.lookup aId = some (.alloca irTy) ∧
      ∃ l, gPre.ctx.blockInsts.lookup blk = some l ∧ aId ∈ l) ∧
    ((List.map FuncFParam.ident fd.params).Nodup →
      ∀ p ∈ fd.params, p.ty = .int →
        ∃ aId sId pv, pv.is_param = true ∧
          gPre.ctx.insts.lookup aId = some (.alloca .i32) ∧
          gPre.ctx.insts.lookup sId = some (.store pv (.instRes aId)) ∧
          (∃ l, gPre.ctx.blockInsts.lookup blk = some l ∧ aId ∈ l ∧ sId ∈ l) ∧
          gPre.symtable.lookup p.ident =
            some { ty := .int, comptime := none,
                   ir_value := some (.value (.instRes aId)) }) := by
  cases hgt : IrGenContext.gen_type fd.ret_ty with
  | none =>
    simp only [FuncDef.irgenSetup, hgt] at h
    exact Option.noConfusion h
  | some irRetTy =>
    simp [FuncDef.irgenSetup, hgt, Func.new, Block.new, Func.push_back_block,
      List.lookup, assocSet] at h
    split at h
    · exact Option.noConfusion h
    · rename_i g3 hap
      split at h
      · exact Option.noConfusion h
      · rename_i g4 hps
        -- facts about the state after `addParams`
        have af := addParams_facts fd.params _ _ g3 hap
        obtain ⟨af1, af2, af3, af4, af5, af6, af7, af8, af9, af10⟩ := af
        have hn3 : g3.ctx.nextId = g.ctx.nextId + 1 + 1 := af1
        have hbi3 : g3.ctx.blockInsts = (g.ctx.nextId + 1, []) :: g.ctx.blockInsts := af3
        have hcf3 : g3.curr_func = some g.ctx.nextId := af4
        have hcb3 : g3.curr_block = some (g.ctx.nextId + 1) := af5
        have hcrs3 : g3.curr_ret_slot = none := af6.trans hslot
        have hfm3 : (g3.ctx.funcs.lookup g.ctx.nextId).map FuncData.blocks
            = some [g.ctx.nextId + 1] :=
          (af8 g.ctx.nextId).trans (lookup_self_cons_map_blocks g.ctx.funcs g.ctx.nextId
            { name := fd.ident, retTy := irRetTy, params := [],
              blocks := [g.ctx.nextId + 1] })
        have hwf3 : CtxLt g3.ctx := af9 (ctxlt_after_funcblock g.ctx hwf
          { name := fd.ident, retTy := irRetTy, params := [],
            blocks := [g.ctx.nextId + 1] })
        have hstkG2 : ((g.symtable.enter_scope).insert_upper fd.ident
            { ty := Ty.func (List.map FuncFParam.ty fd.params) fd.ret_ty
              comptime := none
              ir_value := none } 1).stack ≠ [] :=
          SymbolTable.insert_upper_stack_ne _ _ _ _
            (by simp [SymbolTable.enter_scope])
        have hstk3 : g3.symtable.stack ≠ [] := af10 hstkG2
        -- facts about the state after `paramSlots`
        obtain ⟨pres3, hlkps, hstkps⟩ :=
          paramSlots_pres fd.params (g.ctx.nextId + 1) g3 g4 hwf3 hcb3.symm hps
        have hwf4 : CtxLt g4.ctx := pres3.wf
        have hcb4 : g4.curr_block = some (g.ctx.nextId + 1) := pres3.curr_block.trans hcb3
        have hcf4 : g4.curr_func = some g.ctx.nextId := pres3.curr_func.trans hcf3
        have hcrs4 : g4.curr_ret_slot = none := pres3.curr_ret_slot.trans hcrs3
        have hfm4 : (g4.ctx.funcs.lookup g.ctx.nextId).map FuncData.blocks
            = some [g.ctx.nextId + 1] := by
          rw [pres3.funcs]
          exact hfm3
        have hn4 : g.ctx.nextId + 1 + 1 ≤ g4.ctx.nextId := by
          rw [← hn3]
          exact pres3.nextId_le
        obtain ⟨l4e, hl4e, _⟩ := pres3.blocks_sub (g.ctx.nextId + 1) []
          (by rw [hbi3]; exact lookup_self_cons _ _ _)
        have hstk4 : g4.symtable.stack ≠ [] := hstkps hstk3
        have hent4 : entryOf g4 = some (g.ctx.nextId + 1) := by
          simp only [entryOf, hcf4]
          cases hlf : g4.ctx.funcs.lookup g.ctx.nextId with
          | none =>
            rw [hlf] at hfm4
            exact Option.noConfusion hfm4
          | some fd4 =>
            rw [hlf] at hfm4
            simp only [Func.head, hlf]
            have hb4 : fd4.blocks = [g.ctx.nextId + 1] := by simpa using hfm4
            rw [hb4]
            rfl
        -- the per-parameter slot facts, at the `paramSlots` output
        have hc3all : (List.map FuncFParam.ident fd.params).Nodup →
            ∀ p ∈ fd.params, p.ty = .int →
            ∃ aId sId pv, pv.is_param = true ∧
              g4.ctx.insts.lookup aId = some (.alloca .i32) ∧
              g4.ctx.insts.lookup sId = some (.store pv (.instRes aId)) ∧
              (∃ l, g4.ctx.blockInsts.lookup (g.ctx.nextId + 1) = some l ∧
                aId ∈ l ∧ sId ∈ l) ∧
              g4.symtable.lookup p.ident = some
                { ty := Ty.int
                  comptime := none
                  ir_value := some (.value (.instRes aId)) } := by
          intro hnd p hp hpint
          have hb := addParams_binds fd.params _ _ g3 hnd hstkG2 hap
          have hbind3 : ∀ p2 ∈ fd.params, ∃ pv : Value, pv.is_param = true ∧
              g3.symtable.lookup p2.ident = some
                { ty := p2.ty
                  comptime := none
                  ir_value := some (.value pv) } := by
            intro p2 hp2
            obtain ⟨kidx, hk⟩ := hb p2 hp2
            exact ⟨.param g.ctx.nextId kidx, rfl, hk⟩
          obtain ⟨aId, sId, pv, h1, h2, h3, h4, h5, _⟩ :=
            paramSlots_c3 fd.params (g.ctx.nextId + 1) g3 g4 hnd hwf3 hcb3.symm
              hstk3 hbind3 hps p hp hpint
          exact ⟨aId, sId, pv, h1, h2, h3, h4, h5⟩
        split at h
        · -- void return type
          rename_i hv
          simp only [Option.some.injEq, Prod.mk.injEq] at h
          obtain ⟨hg5, hf, hblk, hretB⟩ := h
          subst hg5
          subst hf
          subst hblk
          subst hretB
          refine ⟨?_, ?_, ?_, ?_, ?_, ?_, ?_, ?_, ?_, ?_, ?_, ?_⟩
          · exact ctxlt_after_blocknew g4.ctx hwf4
          · exact hcf4
          · exact hcb4
          · rfl
          · omega
          · exact hfm4
          · exact lookup_self_cons g4.ctx.blockInsts g4.ctx.nextId []
          · exact (entryOf_eq_of g4 _ rfl rfl).trans hent4
          · exact hstk4
          · intro _
            exact hcrs4
          · intro hnv
            rw [hv] at hnv
            exact Bool.noConfusion hnv
          · intro hnd p hp hpint
            obtain ⟨aId, sId, pv, h1, h2, h3, ⟨l4, hl4, ha, hs2⟩, h5⟩ :=
              hc3all hnd p hp hpint
            refine ⟨aId, sId, pv, h1, h2, h3, ⟨l4, ?_, ha, hs2⟩, h5⟩
            exact (lookup_cons_ne g4.ctx.blockInsts g4.ctx.nextId (g.ctx.nextId + 1) []
              (by omega)).trans hl4
        · -- non-void return type
          rename_i hv
          have hv2 : fd.ret_ty.is_void = false := by simpa using hv
          split at h
          · exact Option.noConfusion h
          · rename_i retSlot g6 hemF
            split at h
            · exact Option.noConfusion h
            · rename_i slotVal hres
              simp only [Option.some.injEq, Prod.mk.injEq] at h
              obtain ⟨hg, hf, hblk, hretB⟩ := h
              subst hf
              subst hblk
              subst hretB
              subst hg
              have hwfG5 : CtxLt
                  { nextId := g4.ctx.nextId + 1
                    insts := g4.ctx.insts
                    blockInsts := (g4.ctx.nextId, []) :: g4.ctx.blockInsts
                    funcs := g4.ctx.funcs } := ctxlt_after_blocknew g4.ctx hwf4
              obtain ⟨pres6, hrsId, hlkA, l5, hl5, hl6⟩ :=
                @emitFront_pres
                  { g4 with
                    ctx := { nextId := g4.ctx.nextId + 1
                             insts := g4.ctx.insts
                             blockInsts := (g4.ctx.nextId, []) :: g4.ctx.blockInsts
                             funcs := g4.ctx.funcs }
                    curr_ret_block := some g4.ctx.nextId }
                  (g.ctx.nextId + 1) (InstKind.alloca irRetTy) retSlot g6
                  hwfG5 (Or.inl hcb4.symm) hemF
              have hsv : slotVal = Value.instRes retSlot := by
                have h2 := Inst.result_eq g6.ctx retSlot hlkA
                rw [hres] at h2
                simpa using h2
              have hentG5 : entryOf
                  { g4 with
                    ctx := { nextId := g4.ctx.nextId + 1
                             insts := g4.ctx.insts
                             blockInsts := (g4.ctx.nextId, []) :: g4.ctx.blockInsts
                             funcs := g4.ctx.funcs }
                    curr_ret_block := some g4.ctx.nextId } = some (g.ctx.nextId + 1) :=
                (entryOf_eq_of g4 _ rfl rfl).trans hent4
              refine ⟨?_, ?_, ?_, ?_, ?_, ?_, ?_, ?_, ?_, ?_, ?_, ?_⟩
              · exact pres6.wf
              · exact pres6.curr_func.trans hcf4
              · exact pres6.curr_block.trans hcb4
              · exact pres6.curr_ret_block
              · omega
              · show (g6.ctx.funcs.lookup g.ctx.nextId).map FuncData.blocks
                    = some [g.ctx.nextId + 1]
                rw [pres6.funcs]
                exact hfm4
              · have hne1 : (some g4.ctx.nextId : Option Nat) ≠ g4.curr_block := by
                  rw [hcb4]
                  intro hcon
                  injection hcon with hcon
                  omega
                have hne2 : (some g4.ctx.nextId : Option Nat) ≠ entryOf
                    { g4 with
                      ctx := { nextId := g4.ctx.nextId + 1
                               insts := g4.ctx.insts
                               blockInsts := (g4.ctx.nextId, []) :: g4.ctx.blockInsts
                               funcs := g4.ctx.funcs }
                      curr_ret_block := some g4.ctx.nextId } := by
                  rw [hentG5]
                  intro hcon
                  injection hcon with hcon
                  omega
                have hoth := pres6.blocks_other g4.ctx.nextId hne1 hne2
                exact hoth.trans (lookup_self_cons g4.ctx.blockInsts g4.ctx.nextId [])
              · exact (entryOf_eq_of g6 _ rfl rfl).trans (pres6.entryOf_eq.trans hentG5)
              · show g6.symtable.stack ≠ []
                rw [emitFront_symtable hemF]
                exact hstk4
              · intro hvv
                rw [hvv] at hv2
                exact Bool.noConfusion hv2
              · intro _
                refine ⟨retSlot, irRetTy, rfl, ?_, hlkA, retSlot :: l5, hl6, ?_⟩
                · show some slotVal = some (Value.instRes retSlot)
                  rw [hsv]
                · exact List.mem_cons_self _ _
              · intro hnd p hp hpint
                obtain ⟨aId, sId, pv, h1, h2, h3, ⟨l4, hl4, ha, hs2⟩, h5⟩ :=
                  hc3all hnd p hp hpint
                have hl4b : ((g4.ctx.nextId, ([] : List Nat)) ::
                    g4.ctx.blockInsts).lookup (g.ctx.nextId + 1) = some l4 :=
                  (lookup_cons_ne g4.ctx.blockInsts g4.ctx.nextId (g.ctx.nextId + 1) []
                    (by omega)).trans hl4
                obtain ⟨l6b, hl6b, hsub⟩ := pres6.blocks_sub (g.ctx.nextId + 1) l4 hl4b
                refine ⟨aId, sId, pv, h1, pres6.insts _ _ h2, pres6.insts _ _ h3,
                  ⟨l6b, hl6b, hsub _ ha, hsub _ hs2⟩, ?_⟩
                show g6.symtable.lookup p.ident = _
                rw [emitFront_symtable hemF]
                exact h5


theorem emitBack_any {g : IrGenContext} {b : Nat} {k : InstKind} {i : Nat}
    {g2 : IrGenContext} (h : emitBack g b k = some (i, g2)) :
    i = g.ctx.nextId ∧
    g2.ctx.nextId = g.ctx.nextId + 1 ∧
    g2.ctx.insts = (g.ctx.nextId, k) :: g.ctx.insts ∧
    g2.ctx.funcs = g.ctx.funcs ∧
    g2.symtable = g.symtable ∧
    g2.curr_func = g.curr_func ∧
    g2.curr_block = g.curr_block ∧
    g2.curr_ret_slot = g.curr_ret_slot ∧
    g2.curr_ret_block = g.curr_ret_block ∧
    ∃ l, g.ctx.blockInsts.lookup b = some l ∧
      g2.ctx.blockInsts = assocSet g.ctx.blockInsts b (l ++ [i]) := by
  rw [emitBack_eq] at h
  cases hl : g.ctx.blockInsts.lookup b with
  | none => rw [hl] at h; exact Option.noConfusion h
  | some l =>
    rw [hl] at h
    simp only [Option.some.injEq, Prod.mk.injEq] at h
    obtain ⟨hi, hg⟩ := h
    subst hi
    subst hg
    exact ⟨rfl, rfl, rfl, rfl, rfl, rfl, rfl, rfl, rfl, l, rfl, rfl⟩

theorem irgenFinish_spec (g : IrGenContext) (fd : FuncDef) (f retB : Nat)
    (g2 : IrGenContext) (blocksF : List Nat)
    (hwf : CtxLt g.ctx)
    (hfm : (g.ctx.funcs.lookup f).map FuncData.blocks = some blocksF)
    (hrb : g.ctx.blockInsts.lookup retB = some [])
    (h : FuncDef.irgenFinish g fd f retB = some g2) :
    (g2.ctx.funcs.lookup f).map FuncData.blocks = some (blocksF ++ [retB]) ∧
    (fd.ret_ty.is_void = true →
      ∃ rId, g2.ctx.blockInsts.lookup retB = some [rId] ∧
        g2.ctx.insts.lookup rId = some (.ret none)) ∧
    (fd.ret_ty.is_void = false → ∃ slot irTy lId rId,
      g.curr_ret_slot = some slot ∧
      IrGenContext.gen_type fd.ret_ty = some irTy ∧
      g2.ctx.blockInsts.lookup retB = some [lId, rId] ∧
      g2.ctx.insts.lookup lId = some (.load slot irTy) ∧
      g2.ctx.insts.lookup rId = some (.ret (some (.instRes lId)))) ∧
    (∀ i k, g.ctx.insts.lookup i = some k → g2.ctx.insts.lookup i = some k) ∧
    (∀ b l, b ≠ retB → g.ctx.blockInsts.lookup b = some l →
      g2.ctx.blockInsts.lookup b = some l) := by
  simp only [FuncDef.irgenFinish] at h
  cases hpb : Func.push_back_block g.ctx f retB with
  | none => rw [hpb] at h; exact Option.noConfusion h
  | some ctx1 =>
    simp only [hpb] at h
    cases hlf : g.ctx.funcs.lookup f with
    | none =>
      rw [hlf] at hfm
      exact Option.noConfusion hfm
    | some fdB =>
      rw [hlf] at hfm
      have hblocks : fdB.blocks = blocksF := by simpa using hfm
      have hctx1 : ctx1 = { g.ctx with
          funcs := assocSet g.ctx.funcs f { fdB with blocks := fdB.blocks ++ [retB] } } := by
        unfold Func.push_back_block at hpb
        rw [hlf] at hpb
        injection hpb with h2
        exact h2.symm
      subst hctx1
      have hfm1 : ((assocSet g.ctx.funcs f
          { fdB with blocks := fdB.blocks ++ [retB] }).lookup f).map FuncData.blocks
          = some (blocksF ++ [retB]) := by
        rw [assocSet_lookup_self]
        simp [hblocks]
      split at h
      · -- void return type
        rename_i hv
        split at h
        · exact Option.noConfusion h
        · rename_i rId gf hem
          simp only [Option.some.injEq] at h
          subst h
          obtain ⟨hi, hn, hinsts, hfuncs, hsym, hcf, hcb, hcrs, hcrb, l0, hl0, hbi⟩ :=
            emitBack_any hem
          have hl0e : l0 = [] := by
            have h2 : g.ctx.blockInsts.lookup retB = some l0 := hl0
            rw [hrb] at h2
            injection h2 with h2
            exact h2.symm
          subst hl0e
          refine ⟨?_, ?_, ?_, ?_, ?_⟩
          · show (gf.ctx.funcs.lookup f).map FuncData.blocks = some (blocksF ++ [retB])
            rw [hfuncs]
            exact hfm1
          · intro _
            refine ⟨rId, ?_, ?_⟩
            · show gf.ctx.blockInsts.lookup retB = some [rId]
              rw [hbi]
              exact assocSet_lookup_self _ _ _
            · show gf.ctx.insts.lookup rId = some (.ret none)
              rw [hinsts, hi]
              exact lookup_self_cons _ _ _
          · intro hnv
            rw [hv] at hnv
            exact Bool.noConfusion hnv
          · intro i k hik
            show gf.ctx.insts.lookup i = some k
            rw [hinsts]
            exact lookup_cons_fresh hwf.1 hik
          · intro b l hb hbl
            show gf.ctx.blockInsts.lookup b = some l
            rw [hbi, assocSet_lookup_ne _ _ _ _ hb]
            exact hbl
      · -- non-void return type
        rename_i hv
        have hv2 : fd.ret_ty.is_void = false := by simpa using hv
        split at h
        · exact Option.noConfusion h
        · rename_i slot hslotEq
          split at h
          · exact Option.noConfusion h
          · rename_i irTy hgt
            split at h
            · exact Option.noConfusion h
            · rename_i lId gf1 hem1
              split at h
              · exact Option.noConfusion h
              · rename_i loadVal hres1
                split at h
                · exact Option.noConfusion h
                · rename_i rId gf2 hem2
                  simp only [Option.some.injEq] at h
                  subst h
                  obtain ⟨hi1, hn1, hinsts1, hfuncs1, hsym1, hcf1, hcb1, hcrs1,
                    hcrb1, l0, hl0, hbi1⟩ := emitBack_any hem1
                  have hl0e : l0 = [] := by
                    have h2 : g.ctx.blockInsts.lookup retB = some l0 := hl0
                    rw [hrb] at h2
                    injection h2 with h2
                    exact h2.symm
                  subst hl0e
                  have hlkL : gf1.ctx.insts.lookup lId = some (.load slot irTy) := by
                    rw [hinsts1, hi1]
                    exact lookup_self_cons _ _ _
                  have hlv : loadVal = .instRes lId := by
                    have h2 := Inst.result_eq gf1.ctx lId hlkL
                    rw [hres1] at h2
                    simpa using h2
                  obtain ⟨hi2, hn2, hinsts2, hfuncs2, hsym2, hcf2, hcb2, hcrs2,
                    hcrb2, l1, hl1, hbi2⟩ := emitBack_any hem2
                  have hl1e : l1 = [lId] := by
                    have h2 : gf1.ctx.blockInsts.lookup retB = some [lId] := by
                      rw [hbi1]
                      exact assocSet_lookup_self _ _ _
                    rw [h2] at hl1
                    injection hl1 with h3
                    exact h3.symm
                  subst hl1e
                  have e1 : lId = g.ctx.nextId := hi1
                  have e2 : gf1.ctx.nextId = g.ctx.nextId + 1 := hn1
                  refine ⟨?_, ?_, ?_, ?_, ?_⟩
                  · show (gf2.ctx.funcs.lookup f).map FuncData.blocks
                        = some (blocksF ++ [retB])
                    rw [hfuncs2, hfuncs1]
                    exact hfm1
                  · intro hvv
                    rw [hvv] at hv2
                    exact Bool.noConfusion hv2
                  · intro _
                    refine ⟨slot, irTy, lId, rId, hslotEq, hgt, ?_, ?_, ?_⟩
                    · show gf2.ctx.blockInsts.lookup retB = some [lId, rId]
                      rw [hbi2]
                      exact assocSet_lookup_self _ _ _
                    · show gf2.ctx.insts.lookup lId = some (.load slot irTy)
                      rw [hinsts2, lookup_cons_ne _ _ _ _ (by omega)]
                      exact hlkL
                    · show gf2.ctx.insts.lookup rId
                          = some (.ret (some (.instRes lId)))
                      rw [hinsts2, hlv, hi2]
                      exact lookup_self_cons _ _ _
                  · intro i k hik
                    have hik1 : gf1.ctx.insts.lookup i = some k := by
                      rw [hinsts1]
                      exact lookup_cons_fresh hwf.1 hik
                    have hbound : ∀ p ∈ gf1.ctx.insts, p.1 < gf1.ctx.nextId := by
                      intro p hp
                      have hp2 : p ∈ (g.ctx.nextId, InstKind.load slot irTy)
                          :: g.ctx.insts := by
                        rw [hinsts1] at hp
                        exact hp
                      rcases List.mem_cons.mp hp2 with he | he
                      · subst he
                        show g.ctx.nextId < gf1.ctx.nextId
                        omega
                      · have := hwf.1 p he
                        omega
                    show gf2.ctx.insts.lookup i = some k
                    rw [hinsts2]
                    exact lookup_cons_fresh hbound hik1
                  · intro b l hb hbl
                    show gf2.ctx.blockInsts.lookup b = some l
                    rw [hbi2, assocSet_lookup_ne _ _ _ _ hb]
                    rw [hbi1, assocSet_lookup_ne _ _ _ _ hb]
                    exact hbl

theorem stmt_ret_some_spec :
    ∀ (g : IrGenContext) (e : Expr) (g2 : IrGenContext), CtxLt g.ctx →
      Stmt.irgen g (.ret (some e)) = some g2 →
      ∃ val g1 slot curr rb sId bId l,
        g.gen_local_expr e = some (val, g1) ∧
        g1.curr_ret_slot = some slot ∧
        g1.curr_block = some curr ∧
        g1.curr_ret_block = some rb ∧
        g1.ctx.blockInsts.lookup curr = some l ∧
        g2.ctx.insts.lookup sId = some (.store val slot) ∧
        g2.ctx.insts.lookup bId = some (.br rb) ∧
        g2.ctx.blockInsts.lookup curr = some ((l ++ [sId]) ++ [bId]) := by
  intro g e g2 hwf h
  simp only [Stmt.irgen] at h
  cases hcb : g.curr_block with
  | none => rw [hcb] at h; exact Option.noConfusion h
  | some curr =>
    simp only [hcb] at h
    cases hg : g.gen_local_expr e with
    | none => rw [hg] at h; exact Option.noConfusion h
    | some p1 =>
      obtain ⟨val, g1⟩ := p1
      simp only [hg] at h
      have pres1 := gen_local_expr_pres e g val g1 hwf hg
      cases hrs : g1.curr_ret_slot with
      | none => rw [hrs] at h; exact Option.noConfusion h
      | some slot =>
        simp only [hrs] at h
        cases hcb1 : g1.curr_block with
        | none => rw [hcb1] at h; exact Option.noConfusion h
        | some curr1 =>
          simp only [hcb1] at h
          cases hem : emitBack g1 curr1 (.store val slot) with
          | none => rw [hem] at h; exact Option.noConfusion h
          | some p2 =>
            obtain ⟨sId, gm⟩ := p2
            simp only [hem] at h
            obtain ⟨pres2, hsid, hsk, l, hl, hl2⟩ :=
              emitBack_pres pres1.wf (Or.inl hcb1.symm) hem
            cases hrb : gm.curr_ret_block with
            | none => rw [hrb] at h; exact Option.noConfusion h
            | some rb =>
              simp only [hrb] at h
              cases hcb2 : gm.curr_block with
              | none => rw [hcb2] at h; exact Option.noConfusion h
              | some curr2 =>
                simp only [hcb2] at h
                cases hem2 : emitBack gm curr2 (.br rb) with
                | none => rw [hem2] at h; exact Option.noConfusion h
                | some p3 =>
                  obtain ⟨bId, gf⟩ := p3
                  simp only [hem2, Option.some.injEq] at h
                  subst h
                  have hcc : curr2 = curr1 := by
                    have h1 : some curr2 = some curr1 := by
                      rw [← hcb2, ← hcb1]
                      exact pres2.curr_block
                    injection h1
                  subst hcc
                  obtain ⟨pres3, hbid, hbk, l2, hl2b, hl3⟩ :=
                    emitBack_pres pres2.wf (Or.inl hcb2.symm) hem2
                  have hl2eq : l2 = l ++ [sId] := by
                    rw [hl2] at hl2b
                    injection hl2b with h2
                    exact h2.symm
                  refine ⟨val, g1, slot, curr2, rb, sId, bId, l, rfl, hrs, hcb1,
                    pres2.curr_ret_block.symm.trans hrb, hl,
                    pres3.insts _ _ hsk, hbk, ?_⟩
                  rw [hl2eq] at hl3
                  exact hl3

theorem stmt_ret_none_spec :
    ∀ (g g2 : IrGenContext), CtxLt g.ctx →
      Stmt.irgen g (.ret none) = some g2 →
      ∃ curr rb bId l,
        g.curr_block = some curr ∧
        g.curr_ret_block = some rb ∧
        g.ctx.blockInsts.lookup curr = some l ∧
        g2.ctx.insts.lookup bId = some (.br rb) ∧
        g2.ctx.blockInsts.lookup curr = some (l ++ [bId]) := by
  intro g g2 hwf h
  simp only [Stmt.irgen] at h
  cases hcb : g.curr_block with
  | none => rw [hcb] at h; exact Option.noConfusion h
  | some curr =>
    simp only [hcb] at h
    cases hrb : g.curr_ret_block with
    | none => rw [hrb] at h; exact Option.noConfusion h
    | some rb =>
      simp only [hrb] at h
      cases hem : emitBack g curr (.br rb) with
      | none => rw [hem] at h; exact Option.noConfusion h
      | some p1 =>
        obtain ⟨bId, gf⟩ := p1
        simp only [hem, Option.some.injEq] at h
        subst h
        obtain ⟨presb, hbid, hbk, l, hl, hl2⟩ :=
          emitBack_pres hwf (Or.inl hcb.symm) hem
        exact ⟨curr, rb, bId, l, rfl, rfl, hl, hbk, hl2⟩

/-- C3 (counterexample): lowering `void f(bool b) {}` emits no `alloca`
and no `store` at all -- the only instruction in the whole arena is the
return block's bare `ret` -- because the parameter-slot loop of
`FuncDef::irgen` guards on `ty.is_int()`, so a boolean parameter gets no
stack slot, contradicting the claim's "integer or boolean" scope. -/
theorem claim_C3_counterexample :
    List.map FuncFParam.ty fdC3bool.params = [Ty.bool] ∧
    (FuncDef.irgen gInit fdC3bool).map
        (fun g2 => (g2.ctx.insts, g2.ctx.blockInsts)) =
      some ([(3, .ret none)], [(2, [3]), (1, [])]) := by
  decide

/-- C3 (amended): for every function definition whose parameter names are
distinct, the pre-body lowering (`FuncDef::irgen` before `self.body.irgen`)
gives every parameter of *integer* type an `alloca` slot and a `store` of
the incoming parameter value, both placed in the entry block, and rebinds
the parameter's symbol-table entry to the slot's instruction result --
which is not a raw parameter value.  (Boolean parameters are skipped by
the `ty.is_int()` guard, as the counterexample shows.) -/
theorem claim_C3_amended :
    ∀ (g : IrGenContext) (fd : FuncDef) (gPre : IrGenContext) (f blk retB : Nat),
      CtxLt g.ctx → g.curr_ret_slot = none →
      (List.map FuncFParam.ident fd.params).Nodup →
      FuncDef.irgenSetup g fd = some (gPre, f, blk, retB) →
      entryOf gPre = some blk ∧
      ∀ p ∈ fd.params, p.ty = .int →
        ∃ aId sId pv, pv.is_param = true ∧
          gPre.ctx.insts.lookup aId = some (.alloca .i32) ∧
          gPre.ctx.insts.lookup sId = some (.store pv (.instRes aId)) ∧
          (∃ l, gPre.ctx.blockInsts.lookup blk = some l ∧ aId ∈ l ∧ sId ∈ l) ∧
          gPre.symtable.lookup p.ident =
            some { ty := .int, comptime := none,
                   ir_value := some (.value (.instRes aId)) } ∧
          (Value.instRes aId).is_param = false := by
  intro g fd gPre f blk retB hwf hslot hnd h
  obtain ⟨_, _, _, _, _, _, _, sent, _, _, _, sc3⟩ :=
    irgenSetup_spec g fd gPre f blk retB hwf hslot h
  refine ⟨sent, ?_⟩
  intro p hp hpint
  obtain ⟨aId, sId, pv, h1, h2, h3, h4, h5⟩ := sc3 hnd p hp hpint
  exact ⟨aId, sId, pv, h1, h2, h3, h4, h5, rfl⟩

theorem claim_C3_amended_witness :
    ∃ gPre f blk retB,
      FuncDef.irgenSetup gInit fdC3int = some (gPre, f, blk, retB) ∧
      entryOf gPre = some blk ∧
      (∀ p ∈ fdC3int.params, p.ty = .int →
        ∃ aId sId pv, pv.is_param = true ∧
          gPre.ctx.insts.lookup aId = some (.alloca .i32) ∧
          gPre.ctx.insts.lookup sId = some (.store pv (.instRes aId)) ∧
          (∃ l, gPre.ctx.blockInsts.lookup blk = some l ∧ aId ∈ l ∧ sId ∈ l) ∧
          gPre.symtable.lookup p.ident =
            some { ty := .int, comptime := none,
                   ir_value := some (.value (.instRes aId)) } ∧
          (Value.instRes aId).is_param = false) := by
  have hsome : (FuncDef.irgenSetup gInit fdC3int).isSome = true := by decide
  cases hs : FuncDef.irgenSetup gInit fdC3int with
  | none => rw [hs] at hsome; exact Bool.noConfusion hsome
  | some q =>
    obtain ⟨gPre, f, blk, retB⟩ := q
    obtain ⟨hent, hrest⟩ :=
      claim_C3_amended gInit fdC3int gPre f blk retB (by decide) rfl (by decide) hs
    exact ⟨gPre, f, blk, retB, rfl, hent, hrest⟩

/-- C9: return plumbing of `FuncDef::irgen` and `Stmt::irgen`.
(1) Every successful function lowering factors as setup (before the body),
body, finish (after the body): the setup creates the return block (it is
recorded in `curr_ret_block` but the function's block list is still just
the entry block), the finish appends it, leaving the block list
`[entry, ret]`; a return-value slot is allocated in the entry block
exactly when the return type is non-void, and the return block holds
`[ret none]` (void) or `[load slot, ret (load result)]` (non-void).
(2) Every lowered `return e` statement appends to the current block a
`store` of the value into `curr_ret_slot` followed by a `br` to
`curr_ret_block`.  (3) Every lowered bare `return` appends just the
`br`. -/
theorem claim_C9_return_plumbing :
    (∀ (g : IrGenContext) (fd : FuncDef) (g2 : IrGenContext),
      CtxLt g.ctx → g.curr_ret_slot = none →
      FuncDef.irgen g fd = some g2 →
      ∃ gPre f blk retB gBody,
        FuncDef.irgenSetup g fd = some (gPre, f, blk, retB) ∧
        Block.irgen gPre fd.body = some gBody ∧
        FuncDef.irgenFinish gBody fd f retB = some g2 ∧
        gPre.curr_ret_block = some retB ∧
        retB ≠ blk ∧
        (gPre.ctx.funcs.lookup f).map FuncData.blocks = some [blk] ∧
        (g2.ctx.funcs.lookup f).map FuncData.blocks = some [blk, retB] ∧
        (fd.ret_ty.is_void = true →
          gPre.curr_ret_slot = none ∧
          ∃ rId, g2.ctx.blockInsts.lookup retB = some [rId] ∧
            g2.ctx.insts.lookup rId = some (.ret none)) ∧
        (fd.ret_ty.is_void = false →
          ∃ aId irTy lId rId,
            IrGenContext.gen_type fd.ret_ty = some irTy ∧
            gPre.curr_ret_slot = some (.instRes aId) ∧
            gPre.ctx.insts.lookup aId = some (.alloca irTy) ∧
            (∃ l, gPre.ctx.blockInsts.lookup blk = some l ∧ aId ∈ l) ∧
            (∃ l2, g2.ctx.blockInsts.lookup blk = some l2 ∧ aId ∈ l2) ∧
            g2.ctx.insts.lookup aId = some (.alloca irTy) ∧
            g2.ctx.blockInsts.lookup retB = some [lId, rId] ∧
            g2.ctx.insts.lookup lId = some (.load (.instRes aId) irTy) ∧
            g2.ctx.insts.lookup rId = some (.ret (some (.instRes lId))))) ∧
    (∀ (g : IrGenContext) (e : Expr) (g2 : IrGenContext), CtxLt g.ctx →
      Stmt.irgen g (.ret (some e)) = some g2 →
      ∃ val g1 slot curr rb sId bId l,
        g.gen_local_expr e = some (val, g1) ∧
        g1.curr_ret_slot = some slot ∧
        g1.curr_block = some curr ∧
        g1.curr_ret_block = some rb ∧
        g1.ctx.blockInsts.lookup curr = some l ∧
        g2.ctx.insts.lookup sId = some (.store val slot) ∧
        g2.ctx.insts.lookup bId = some (.br rb) ∧
        g2.ctx.blockInsts.lookup curr = some ((l ++ [sId]) ++ [bId])) ∧
    (∀ (g g2 : IrGenContext), CtxLt g.ctx →
      Stmt.irgen g (.ret none) = some g2 →
      ∃ curr rb bId l,
        g.curr_block = some curr ∧
        g.curr_ret_block = some rb ∧
        g.ctx.blockInsts.lookup curr = some l ∧
        g2.ctx.insts.lookup bId = some (.br rb) ∧
        g2.ctx.blockInsts.lookup curr = some (l ++ [bId])) := by
  refine ⟨?_, stmt_ret_some_spec, stmt_ret_none_spec⟩
  intro g fd g2 hwf hslot h
  simp only [FuncDef.irgen] at h
  cases hsu : FuncDef.irgenSetup g fd with
  | none => rw [hsu] at h; exact Option.noConfusion h
  | some q =>
    obtain ⟨gPre, f, blk, retB⟩ := q
    simp only [hsu] at h
    cases hbody : Block.irgen gPre fd.body with
    | none => rw [hbody] at h; exact Option.noConfusion h
    | some gBody =>
      simp only [hbody] at h
      obtain ⟨swf, scf, scb, scrb, sne, sfm, srb, sent, sstk, svoid, snv, _⟩ :=
        irgenSetup_spec g fd gPre f blk retB hwf hslot hsu
      have presB := block_irgen_pres fd.body gPre gBody swf hbody
      have hne1 : (some retB : Option Nat) ≠ gPre.curr_block := by
        rw [scb]
        intro hcon
        injection hcon with hcon
        exact sne hcon
      have hne2 : (some retB : Option Nat) ≠ entryOf gPre := by
        rw [sent]
        intro hcon
        injection hcon with hcon
        exact sne hcon
      have hfmB : (gBody.ctx.funcs.lookup f).map FuncData.blocks = some [blk] := by
        rw [presB.funcs]
        exact sfm
      have hrbB : gBody.ctx.blockInsts.lookup retB = some [] := by
        rw [presB.blocks_other retB hne1 hne2]
        exact srb
      obtain ⟨ffm, fvoid, fnv, finsts, fblocks⟩ :=
        irgenFinish_spec gBody fd f retB g2 [blk] presB.wf hfmB hrbB h
      refine ⟨gPre, f, blk, retB, gBody, rfl, hbody, h, scrb, sne, sfm, ffm, ?_, ?_⟩
      · intro hv
        exact ⟨svoid hv, fvoid hv⟩
      · intro hv
        obtain ⟨aId, irTy, hgt, hslotPre, hlkA, lE, hlE, haIn⟩ := snv hv
        obtain ⟨slot2, irTy2, lId, rId, hslotB, hgt2, hretBlist, hlkL, hlkR⟩ := fnv hv
        have hs2 : slot2 = .instRes aId := by
          have hx : some slot2 = some (Value.instRes aId) := by
            rw [← hslotB, ← hslotPre]
            exact presB.curr_ret_slot
          exact Option.some.inj hx
        have hty : irTy2 = irTy := by
          have hx : some irTy2 = some irTy := by rw [← hgt2, ← hgt]
          exact Option.some.inj hx
        subst hs2
        rw [hty] at hlkL
        obtain ⟨lB, hlB, hsubB⟩ := presB.blocks_sub blk lE hlE
        have hlG2 : g2.ctx.blockInsts.lookup blk = some lB :=
          fblocks blk lB (fun hcon => sne hcon.symm) hlB
        refine ⟨aId, irTy, lId, rId, hgt, hslotPre, hlkA, ⟨lE, hlE, haIn⟩,
          ⟨lB, hlG2, hsubB _ haIn⟩, ?_, hretBlist, hlkL, hlkR⟩
        exact finsts _ _ (presB.insts _ _ hlkA)

theorem claim_C9_witness :
    ∃ g2 gPre f blk retB gBody,
      FuncDef.irgen gInit fdC9 = some g2 ∧
      FuncDef.irgenSetup gInit fdC9 = some (gPre, f, blk, retB) ∧
      Block.irgen gPre fdC9.body = some gBody ∧
      FuncDef.irgenFinish gBody fdC9 f retB = some g2 ∧
      retB ≠ blk ∧
      (gPre.ctx.funcs.lookup f).map FuncData.blocks = some [blk] ∧
      (g2.ctx.funcs.lookup f).map FuncData.blocks = some [blk, retB] ∧
      (fdC9.ret_ty.is_void = false →
        ∃ aId irTy lId rId,
          IrGenContext.gen_type fdC9.ret_ty = some irTy ∧
          gPre.curr_ret_slot = some (.instRes aId) ∧
          gPre.ctx.insts.lookup aId = some (.alloca irTy) ∧
          (∃ l, gPre.ctx.blockInsts.lookup blk = some l ∧ aId ∈ l) ∧
          (∃ l2, g2.ctx.blockInsts.lookup blk = some l2 ∧ aId ∈ l2) ∧
          g2.ctx.insts.lookup aId = some (.alloca irTy) ∧
          g2.ctx.blockInsts.lookup retB = some [lId, rId] ∧
          g2.ctx.insts.lookup lId = some (.load (.instRes aId) irTy) ∧
          g2.ctx.insts.lookup rId = some (.ret (some (.instRes lId)))) := by
  have hsome : (FuncDef.irgen gInit fdC9).isSome = true := by
    simp [FuncDef.irgen, FuncDef.irgenSetup, FuncDef.irgenFinish, FuncDef.addParams,
      FuncDef.paramSlots, Block.irgen, Block.irgenItems, Stmt.irgen,
      IrGenContext.gen_local_expr, IrGenContext.gen_local_comptime,
      IrGenContext.gen_type, fdC9, gInit, Func.new, Block.new, Func.push_back_block,
      Block.push_back, Block.push_front, Inst.new, Inst.result, emitBack, emitFront,
      assocSet, List.lookup, Expr.const_, Ty.is_void, Ty.is_int, Option.isSome]
  cases hs : FuncDef.irgen gInit fdC9 with
  | none => rw [hs] at hsome; exact Bool.noConfusion hsome
  | some g2 =>
    obtain ⟨gPre, f, blk, retB, gBody, h1, h2, h3, h4, h5, h6, h7, h8, h9⟩ :=
      claim_C9_return_plumbing.1 gInit fdC9 g2 (by simp [CtxLt, gInit]) rfl hs
    exact ⟨g2, gPre, f, blk, retB, gBody, rfl, h1, h2, h3, h5, h6, h7, h9⟩

/-- C1 (code bug): the folder and the lowering disagree on `&&`.
`try_fold` folds `8 && 5` by truthiness to `Bool(true)` (runtime value 1),
but `map_int_binary_op` maps the source `And` to the *bitwise* integer
`And` instruction, so the lowered expression computes `8 & 5 = 0` when
executed under the spec's IR semantics. -/
theorem claim_C1_fold_lower_divergence :
    Expr.try_fold (Expr.binary .and (Expr.const_ (.int 8)) (Expr.const_ (.int 5)))
        { stack := [[]] } = some (some (.bool true)) ∧
    comptimeRuntime (.bool true) = some 1 ∧
    IrGenContext.map_int_binary_op .and = IntBinaryOp.and ∧
    lowerAndRun (Expr.binary .and (Expr.const_ (.int 8)) (Expr.const_ (.int 5)))
      = some 0 := by
  decide
